import Mathlib

/-!
scrapefd: a shallow embedding of `main.go` and `util.go`.

Go strings are modelled as lists of Unicode code points (`Str`), i.e. the
text is taken to be valid UTF-8.  Every marker that the program searches
for is ASCII, so an offset counted in code points delimits the same slice
as the byte offset the Go code uses.

A Go run-time fault (slice bounds out of range, index out of range) is
modelled by `none` in `Option`; a normal return is `some`.

The global map `FDList` is passed explicitly as a value of type `FDMap`.
-/

namespace Scrapefd

/-- Go `string`, as a list of code points. -/
abbrev Str := List Char

/-! ## The pieces of the Go standard library that the program calls -/

/-- Go `strings.HasPrefix(s, p)`. -/
def HasPrefix : Str → Str → Bool
  | _, [] => true
  | [], _ :: _ => false
  | c :: s, d :: p => c == d && HasPrefix s p

/-- Go `strings.Index(s, substr)`: offset of the first occurrence of
`substr` in `s`; Go returns `-1` where this model returns `none`. -/
def Index : Str → Str → Option Nat
  | [], sub => if HasPrefix [] sub then some 0 else none
  | c :: s, sub =>
    if HasPrefix (c :: s) sub then some 0
    else (Index s sub).map (fun i => i + 1)

/-- Go `strings.LastIndex(s, substr)`: offset of the last occurrence. -/
def LastIndex : Str → Str → Option Nat
  | [], sub => if HasPrefix [] sub then some 0 else none
  | c :: s, sub =>
    match LastIndex s sub with
    | some i => some (i + 1)
    | none => if HasPrefix (c :: s) sub then some 0 else none

/-- Go `strings.IndexRune(s, r)`: offset of the first `r` in `s`. -/
def IndexRune (s : Str) (r : Char) : Option Nat := Index s [r]

/-- Go slice expression `s[lo:hi]` on a string: faults unless
`lo ≤ hi ≤ len(s)`. -/
def slice (s : Str) (lo hi : Nat) : Option Str :=
  if lo ≤ hi ∧ hi ≤ s.length then some ((s.take hi).drop lo) else none

/-- Go `unicode.IsSpace`: `\t`, `\n`, `\v`, `\f`, `\r`, space, U+0085, U+00A0
and the code points of category Z. -/
def isSpace (c : Char) : Bool :=
  c.toNat = 0x09 || c.toNat = 0x0A || c.toNat = 0x0B || c.toNat = 0x0C ||
  c.toNat = 0x0D || c.toNat = 0x20 ||
  c.toNat = 0x85 || c.toNat = 0xA0 || c.toNat = 0x1680 ||
  (0x2000 ≤ c.toNat && c.toNat ≤ 0x200A) ||
  c.toNat = 0x2028 || c.toNat = 0x2029 || c.toNat = 0x202F ||
  c.toNat = 0x205F || c.toNat = 0x3000

/-- Go `strings.TrimSpace`: drop leading and trailing white space. -/
def TrimSpace (s : Str) : Str :=
  ((s.dropWhile isSpace).reverse.dropWhile isSpace).reverse

/-- Go `strings.ToLower`, over the rune mapping `lower`
(`unicode.ToLower`, whose tables belong to the Go library and are taken
as a parameter). -/
def ToLower (lower : Char → Char) (s : Str) : Str := s.map lower

/-- The ASCII part of `unicode.ToLower`: `A`..`Z` to `a`..`z`, every other
code point left alone. -/
def asciiLower (c : Char) : Char := c.toLower

/-- Go `strings.Split(s, sep)` for a non-empty `sep`, cutting at successive
first occurrences of `sep`; `fuel` bounds the number of cuts. -/
def splitLoop (sep : Str) : Nat → Str → List Str
  | 0, s => [s]
  | fuel + 1, s =>
    match Index s sep with
    | none => [s]
    | some i => s.take i :: splitLoop sep fuel (s.drop (i + sep.length))

/-- Go `strings.Split(s, sep)` (`sep` non-empty): at most `len(s)` cuts can
occur, so `len(s)` fuel is enough. -/
def Split (s sep : Str) : List Str := splitLoop sep s.length s

/-! ## util.go -/

/-- `Stripchars` returns a string with the characters from chars removed. -/
def Stripchars (str chars : Str) : Str :=
  str.filter (fun r => (IndexRune chars r).isNone)

/-- `csvQuote`: if the string, with its double quotes taken out, has a
comma, the result is the string itself between two double quotes;
otherwise the string itself. -/
def csvQuote (s : Str) : Str :=
  match LastIndex (Stripchars s "\"".toList) ",".toList with
  | some _ => "\"".toList ++ s ++ "\"".toList
  | none => s

/-- `reCSZ` is the regular expression to match City, State, and Zip in the
scraped data: `^([^,]+),\s*([A-Z]{2})\s*([0-9]+)`.  The pattern is a
start-of-text anchor followed by a sequence of repeated character classes,
which is the fragment of the Go `regexp` syntax modelled here. -/
structure ReItem where
  /-- the character class -/
  cls : Char → Bool
  /-- least number of repetitions -/
  min : Nat
  /-- greatest number of repetitions, `none` for unbounded -/
  max : Option Nat
  /-- whether the item is a capture group -/
  capture : Bool

/-- Length of the longest run of characters of class `p` at the start of `s`. -/
def runLen (p : Char → Bool) : Str → Nat
  | [] => 0
  | c :: s => if p c then runLen p s + 1 else 0

/-- Greedy repetition with backtracking: try `n` repetitions, then `n - 1`,
... down to `lo`, and keep the first count for which the rest of the
pattern (`cont`) matches what is left of the text. -/
def reTry (cont : Str → Option (List Str)) (cap : Bool) (lo : Nat) (s : Str) :
    Nat → Option (List Str)
  | 0 =>
    if lo = 0 then (cont s).map (fun gs => if cap then [] :: gs else gs) else none
  | n + 1 =>
    if lo ≤ n + 1 then
      match cont (s.drop (n + 1)) with
      | some gs => some (if cap then s.take (n + 1) :: gs else gs)
      | none => reTry cont cap lo s n
    else none

/-- Upper bound of a repetition applied to the length of the available run. -/
def capRun (max : Option Nat) (n : Nat) : Nat :=
  match max with
  | none => n
  | some m => if n ≤ m then n else m

/-- Leftmost-first match of a sequence of repeated classes at the start of
the text; the result is the list of the texts of the capture groups. -/
def reMatch : List ReItem → Str → Option (List Str)
  | [], _ => some []
  | it :: its, s =>
    reTry (reMatch its) it.capture it.min s (capRun it.max (runLen it.cls s))

/-- Class `[^,]`. -/
def notComma (c : Char) : Bool := c != ','

/-- Class `,`. -/
def isComma (c : Char) : Bool := c == ','

/-- Class `\s` of Go `regexp`: `[\t\n\f\r ]`. -/
def reSpace (c : Char) : Bool :=
  c.toNat = 0x09 || c.toNat = 0x0A || c.toNat = 0x0C || c.toNat = 0x0D || c.toNat = 0x20

/-- Class `[A-Z]`. -/
def reUpper (c : Char) : Bool := 'A'.toNat ≤ c.toNat && c.toNat ≤ 'Z'.toNat

/-- Class `[0-9]`. -/
def reDigit (c : Char) : Bool := '0'.toNat ≤ c.toNat && c.toNat ≤ '9'.toNat

/-- The pattern `^([^,]+),\s*([A-Z]{2})\s*([0-9]+)`. -/
def reCSZ : List ReItem :=
  [ ⟨notComma, 1, none, true⟩,
    ⟨isComma, 1, some 1, false⟩,
    ⟨reSpace, 0, none, false⟩,
    ⟨reUpper, 2, some 2, true⟩,
    ⟨reSpace, 0, none, false⟩,
    ⟨reDigit, 1, none, true⟩ ]

/-- Go `(*Regexp).FindAllStringSubmatchIndex(s, -1)` for a pattern anchored
at the start of the text: the list of matches has at most one element.
Each match is given by the texts of its capture groups, i.e. for a match
`m` the Go slice `s[m[2*j]:m[2*j+1]]` is element `j - 1` of the list. -/
def FindAllStringSubmatch (re : List ReItem) (s : Str) : List (List Str) :=
  match reMatch re s with
  | none => []
  | some gs => [gs]

/-- `CSVColumn` defines a column of the CSV file. -/
structure CSVColumn where
  Name : Str
  Index : Nat
deriving DecidableEq

/-- The two `fmt.Errorf` values that `ValidateCSVColumnsErr` builds, each
given by the arguments of its format string. -/
inductive CsvErr where
  /-- "%s: line %d - Error at column heading %d, expected %s, found %s\n" -/
  | heading (funcname : Str) (lineno : Int) (col : Nat) (expected found : Str)
  /-- "%s: line %d - found %d values, there must be at least %d\n" -/
  | tooFew (funcname : Str) (lineno : Int) (found required : Nat)
deriving DecidableEq

/-- The comparison of one row field with one expected column title, as
`ValidateCSVColumnsErr` writes it:
`Stripchars(strings.ToLower(strings.TrimSpace(sa[i])), " ") != strings.ToLower(csvCols[i].Name)`. -/
def headingDiffers (lower : Char → Char) (col : CSVColumn) (field : Str) : Bool :=
  Stripchars (ToLower lower (TrimSpace field)) " ".toList != ToLower lower col.Name

/-- The loop of `ValidateCSVColumnsErr` over a row that is too short:
`for i := 0; i < len(csvCols); i++ { if i < l { ... } }`, started at `i`
with `fuel` iterations left. -/
def shortLoop (lower : Char → Char) (csvCols : List CSVColumn) (sa : List Str)
    (funcname : Str) (lineno : Int) : Nat → Nat → Option CsvErr
  | 0, _ => none
  | fuel + 1, i =>
    if i < sa.length then
      if headingDiffers lower (csvCols.getD i ⟨[], 0⟩) (sa.getD i []) then
        some (CsvErr.heading funcname lineno i (csvCols.getD i ⟨[], 0⟩).Name (sa.getD i []))
      else shortLoop lower csvCols sa funcname lineno fuel (i + 1)
    else shortLoop lower csvCols sa funcname lineno fuel (i + 1)

/-- The loop of `ValidateCSVColumnsErr` on line 1:
`for i := 0; i < len(csvCols); i++ { ... }`. -/
def headerLoop (lower : Char → Char) (csvCols : List CSVColumn) (sa : List Str)
    (funcname : Str) (lineno : Int) : Nat → Nat → Option CsvErr
  | 0, _ => none
  | fuel + 1, i =>
    if headingDiffers lower (csvCols.getD i ⟨[], 0⟩) (sa.getD i []) then
      some (CsvErr.heading funcname lineno i (csvCols.getD i ⟨[], 0⟩).Name (sa.getD i []))
    else headerLoop lower csvCols sa funcname lineno fuel (i + 1)

/-- `ValidateCSVColumnsErr` verifies the column titles with the supplied,
expected titles.  Result: `false` and no error when everything is OK,
`true` and an error when at least one column is wrong.  Both loops run
`i` from `0` to `len(csvCols) - 1`; every index they use is in range by
the tests `i < l` and `len(sa) ≥ required`. -/
def ValidateCSVColumnsErr (lower : Char → Char) (csvCols : List CSVColumn) (sa : List Str)
    (funcname : Str) (lineno : Int) : Bool × Option CsvErr :=
  let required := csvCols.length
  if sa.length < required then
    match shortLoop lower csvCols sa funcname lineno csvCols.length 0 with
    | some e => (true, some e)
    | none => (true, some (CsvErr.tooFew funcname lineno sa.length required))
  else if lineno = 1 then
    match headerLoop lower csvCols sa funcname lineno csvCols.length 0 with
    | some e => (true, some e)
    | none => (false, none)
  else (false, none)

/-! ## main.go -/

/-- `FDRecord` encapsulates the full set of fields that we want for each
fire department. -/
structure FDRecord where
  FDID : Int
  Name : Str
  County : Str
  Chief : Str
  Phone : Str
  Fax : Str
  Address : Str
  Address2 : Str
  City : Str
  State : Str
  PostalCode : Str
deriving DecidableEq

/-- The zero value of `FDRecord` (`var f FDRecord`). -/
def FDRecord.zero : FDRecord := ⟨0, [], [], [], [], [], [], [], [], [], []⟩

/-- The type of `FDList`, `map[string]FDRecord`, as a list of entries. -/
abbrev FDMap := List (Str × FDRecord)

/-- Go `f, ok := m[k]`. -/
def mapGet : FDMap → Str → Option FDRecord
  | [], _ => none
  | (k1, v1) :: m, k => if k1 = k then some v1 else mapGet m k

/-- Go `m[k] = v`: replace the entry under `k`, or add one. -/
def mapSet : FDMap → Str → FDRecord → FDMap
  | [], k, v => [(k, v)]
  | (k1, v1) :: m, k, v => if k1 = k then (k, v) :: m else (k1, v1) :: mapSet m k v

/-- The keys of the map. -/
def mapKeys (m : FDMap) : List Str := m.map Prod.fst

/-- The literal `"id=\"fdcontact\""`, start of the contact section. -/
def markStart : Str := "id=\"fdcontact\"".toList
/-- The literal `"id=\"fdresources\""`, end of the contact section. -/
def markStop : Str := "id=\"fdresources\"".toList
/-- The literal `"<h3>"`. -/
def nameOpen : Str := "<h3>".toList
/-- The literal `"</h3>"`. -/
def nameClose : Str := "</h3>".toList
/-- The literal `target := "<h4>Contact Information:</h4>"`. -/
def target : Str := "<h4>Contact Information:</h4>".toList
/-- The literal `"Ph:"`, end of the address. -/
def phMark : Str := "Ph:".toList
/-- The literal `"<br />"`, separator of the address lines. -/
def brSep : Str := "<br />".toList

/-- Search the HTML for the FD Name, the address, city, state, and zip.
Update the map with this new info.  Status: 0 success, 1 could not find
start string, 2 could not find stop string, 3 could not bracket FD Name,
4 could not bracket FD address, 5 could not find FDList entry for FD Name.
The result is the status and the map afterwards; `none` is a run-time
fault.  The message printed with status 5 is left out. -/
def scrapeHTML (FDList : FDMap) (src : Str) (FDID : Int) : Option (Int × FDMap) :=
  match Index src markStart with
  | none => some (1, FDList)
  | some i1 =>
  match Index src markStop with
  | none => some (2, FDList)
  | some i2 =>
  match slice src i1 i2 with
  | none => none
  | some s =>
  match Index s nameOpen, Index s nameClose with
  | none, _ => some (3, FDList)
  | some _, none => some (3, FDList)
  | some j1, some j2 =>
  match slice s (j1 + 4) j2 with
  | none => none
  | some nm =>
  let name := TrimSpace nm
  match Index s target, Index s phMark with
  | none, _ => some (4, FDList)
  | some _, none => some (4, FDList)
  | some k1, some k2 =>
  match slice s (k1 + target.length) k2 with
  | none => none
  | some raw =>
  let addr := (Split raw brSep).map TrimSpace
  match addr.get? 1 with
  | none => none
  | some addr1 =>
  match (FindAllStringSubmatch reCSZ addr1).get? 0 with
  | none => none
  | some m0 =>
  match m0.get? 0, m0.get? 1, m0.get? 2, addr.get? 0 with
  | some city, some state, some zip, some addr0 =>
    match mapGet FDList name with
    | none => some (5, FDList)
    | some f =>
      some (0, mapSet FDList name
        { f with
          FDID := FDID
          Address := csvQuote (TrimSpace addr0)
          City := csvQuote (TrimSpace city)
          State := csvQuote (TrimSpace state)
          PostalCode := csvQuote (TrimSpace zip) })
  | _, _, _, _ => none

/-- `Name`, et al, are the fields we expect to find in the csv file. -/
def Name : Nat := 0
/-- Column of the county (`iota` is 1 here). -/
def County : Nat := 1
/-- Column of the chief. -/
def Chief : Nat := 2
/-- Column of the phone number. -/
def Phone : Nat := 3
/-- Column of the fax number. -/
def Fax : Nat := 4

/-- `csvCols` is an array that defines all the columns that should be in
this csv file. -/
def csvCols : List CSVColumn :=
  [ ⟨"Name".toList, Name⟩,
    ⟨"County".toList, County⟩,
    ⟨"Chief".toList, Chief⟩,
    ⟨"Phone".toList, Phone⟩,
    ⟨"Fax".toList, Fax⟩ ]

/-- `processfd` validates the row and, for a data row, stores its record
in the map under the trimmed name.  The result is the pair that Go
returns and the map afterwards; `none` is a run-time fault (index out of
range). -/
def processfd (lower : Char → Char) (FDList : FDMap) (sa : List Str) (lineno : Int) :
    Option ((Int × Option CsvErr) × FDMap) :=
  match ValidateCSVColumnsErr lower csvCols sa "processfd".toList lineno with
  | (true, err) => some ((1, err), FDList)
  | (false, _) =>
    if lineno = 1 then some ((0, none), FDList)
    else
      match sa.get? Name, sa.get? County, sa.get? Chief, sa.get? Phone, sa.get? Fax with
      | some n, some co, some ch, some ph, some fx =>
        let name := TrimSpace n
        some ((0, none), mapSet FDList name
          { FDRecord.zero with
            Name := csvQuote name
            County := csvQuote (TrimSpace co)
            Chief := csvQuote (TrimSpace ch)
            Phone := csvQuote (TrimSpace ph)
            Fax := csvQuote (TrimSpace fx) })
      | _, _, _, _, _ => none

/-- `CsvErrLoose` et al, are constants used to control whether an error on a
single line causes the entire CSV process to terminate or continue. -/
def CsvErrLoose : Int := 0
/-- If STRICT, the entire CSV loading process terminates on any error. -/
def CsvErrStrict : Int := 1
/-- `CsvErrorSensitivity` is initialized to LOOSE.  No function of the
program reads it. -/
def CsvErrorSensitivity : Int := CsvErrLoose

/-- The loop of `ingestcsv`, `for i := 0; i < len(t); i++`, from row `i`
on: `processfd(t[i], i+1)`, and the loop is left when the status is
positive.  The printed error messages are left out. -/
def ingestLoop (lower : Char → Char) : FDMap → List (List Str) → Int → Option FDMap
  | st, [], _ => some st
  | st, row :: rest, i =>
    match processfd lower st row (i + 1) with
    | none => none
    | some ((s, _), st1) => if s > 0 then some st1 else ingestLoop lower st1 rest (i + 1)

/-- `ingestcsv` on the rows `t` that `LoadCSV("fd.csv")` returns. -/
def ingestcsv (lower : Char → Char) (FDList : FDMap) (t : List (List Str)) : Option FDMap :=
  ingestLoop lower FDList t 0

/-- `getHTML(url, FDID)`, where `fetch FDID` is the body that `http.Get`
returns for the URL of `FDID`, or `none` when the request fails.  The
result says whether an error is returned, with the map afterwards. -/
def getHTML (fetch : Int → Option Str) (FDList : FDMap) (FDID : Int) : Option (Bool × FDMap) :=
  match fetch FDID with
  | none => some (true, FDList)
  | some body =>
    match scrapeHTML FDList body FDID with
    | none => none
    | some (status, st) => some (status != 0, st)

/-- The loop of `buildContactList`, `for i := 1; i < len(FDList); i++`,
from `i` on with `fuel` iterations left. -/
def buildLoop (fetch : Int → Option Str) : Nat → FDMap → Nat → Option FDMap
  | 0, st, _ => some st
  | fuel + 1, st, i =>
    if i < st.length then
      match getHTML fetch st i with
      | none => none
      | some (_, st1) => buildLoop fetch fuel st1 (i + 1)
    else some st

/-- `buildContactList`: the loop starts at 1 and `len(FDList)` iterations
are more than it can make. -/
def buildContactList (fetch : Int → Option Str) (FDList : FDMap) : Option FDMap :=
  buildLoop fetch FDList.length FDList 1

/-- The verb `%d` of `fmt.Printf` on an `int`. -/
def fmtInt (n : Int) : Str :=
  match n with
  | Int.ofNat m => Nat.toDigits 10 m
  | Int.negSucc m => '-' :: Nat.toDigits 10 (m + 1)

/-- One line of `generateCSV`:
`"%d,%s,%s,%s,%s,%s,%s,%s,%s,%s,%s\n"`. -/
def fmtRecord (v : FDRecord) : Str :=
  fmtInt v.FDID ++ ",".toList ++ v.Name ++ ",".toList ++ v.County ++ ",".toList ++
    v.Chief ++ ",".toList ++ v.Phone ++ ",".toList ++ v.Fax ++ ",".toList ++
    v.Address ++ ",".toList ++ v.Address2 ++ ",".toList ++ v.City ++ ",".toList ++
    v.State ++ ",".toList ++ v.PostalCode ++ "\n".toList

/-- `generateCSV`: the text written to the standard output, the heading and
one line for each entry, here in the order of the list (Go leaves the
order of a map open). -/
def generateCSV (FDList : FDMap) : Str :=
  "FDID,Name,County,Chief,Phone,Fax,Address,Address2,City,State,PostalCode\n".toList ++
    (FDList.map (fun e => fmtRecord e.2)).flatten

/-- `main`, on the rows `t` of `fd.csv` and the pages `fetch`: the text
that `generateCSV` writes, with `FDList` empty at the start. -/
def main (lower : Char → Char) (fetch : Int → Option Str) (t : List (List Str)) : Option Str :=
  match ingestcsv lower [] t with
  | none => none
  | some st1 =>
    match buildContactList fetch st1 with
    | none => none
    | some st2 => some (generateCSV st2)

/-- A sequence of `processfd` calls, each on a row and a line number. -/
def seedRun (lower : Char → Char) : FDMap → List (List Str × Int) → Option FDMap
  | st, [] => some st
  | st, c :: cs =>
    match processfd lower st c.1 c.2 with
    | none => none
    | some (_, st1) => seedRun lower st1 cs

/-- A sequence of `scrapeHTML` calls, each on a page and an id. -/
def scrapeRun : FDMap → List (Str × Int) → Option FDMap
  | st, [] => some st
  | st, c :: cs =>
    match scrapeHTML st c.1 c.2 with
    | none => none
    | some (_, st1) => scrapeRun st1 cs

/-- The name that `scrapeHTML` takes from a page (its steps up to
`name := strings.TrimSpace(s[i1+4 : i2])`), when it gets that far. -/
def scrapedName (src : Str) : Option Str :=
  match Index src markStart with
  | none => none
  | some i1 =>
  match Index src markStop with
  | none => none
  | some i2 =>
  match slice src i1 i2 with
  | none => none
  | some s =>
  match Index s nameOpen, Index s nameClose with
  | some j1, some j2 => (slice s (j1 + 4) j2).map TrimSpace
  | _, _ => none

/-- The stores that the program can reach from the empty map by calls of
`processfd` and `scrapeHTML`. -/
inductive Reachable (lower : Char → Char) : FDMap → Prop where
  | empty : Reachable lower []
  | seed (st st1 : FDMap) (sa : List Str) (lineno : Int) (r : Int × Option CsvErr) :
      Reachable lower st → processfd lower st sa lineno = some (r, st1) → Reachable lower st1
  | scrape (st st1 : FDMap) (src : Str) (id status : Int) :
      Reachable lower st → scrapeHTML st src id = some (status, st1) → Reachable lower st1

/-- The baseline fields of a record, those that come from the CSV file. -/
def baseline (f : FDRecord) : Str × Str × Str × Str × Str :=
  (f.Name, f.County, f.Chief, f.Phone, f.Fax)

/-- The scraped fields of a record, those that come from the page. -/
def scraped (f : FDRecord) : Int × Str × Str × Str × Str :=
  (f.FDID, f.Address, f.City, f.State, f.PostalCode)

/-! ## Sample inputs -/

/-- The heading of `fd.csv`. -/
def headerRow : List Str :=
  ["Name".toList, "County".toList, "Chief".toList, "Phone".toList, "Fax".toList]

/-- The data row of the end-to-end scenario. -/
def alphaRow : List Str :=
  ["Alpha FD".toList, "County A".toList, "Chief X".toList, "555-0001".toList,
    "555-0002".toList]

/-- The page of the end-to-end scenario. -/
def alphaPage : Str :=
  ("<div id=\"fdcontact\"><h3>Alpha FD</h3><h4>Contact Information:</h4>" ++
    "123 Main St<br />Example City, OK 74000Ph:</div><div id=\"fdresources\">").toList

/-- A detail page with all five markers in order. -/
def samplePage : Str :=
  ("<div id=\"fdcontact\"><h3>Alpha FD</h3><h4>Contact Information:</h4>" ++
    "123 Main St<br />Example City, OK 74000Ph: 555</div><div id=\"fdresources\">").toList

/-- A data row whose name holds a comma. -/
def commaRow : List Str :=
  ["Alpha, FD".toList, "County A".toList, "Chief X".toList, "555-0001".toList,
    "555-0002".toList]

/-- A page whose name holds a comma. -/
def commaPage : Str :=
  ("<div id=\"fdcontact\"><h3> Alpha, FD </h3><h4>Contact Information:</h4>" ++
    "1 Main St<br />Tulsa, OK 74000Ph:</div><div id=\"fdresources\">").toList

/-- The store after `commaRow` on line 2. -/
def commaStore : FDMap :=
  [("Alpha, FD".toList, ⟨0, "\"Alpha, FD\"".toList, "County A".toList, "Chief X".toList,
    "555-0001".toList, "555-0002".toList, [], [], [], [], []⟩)]

/-- A later data row with the name of `alphaRow` and another county. -/
def alphaRowLater : List Str :=
  ["Alpha FD".toList, "County Z".toList, "Chief X".toList, "555-0001".toList,
    "555-0002".toList]

/-- A page whose address block has a single fragment. -/
def pageOneFragment : Str :=
  ("id=\"fdcontact\"<h3>A</h3><h4>Contact Information:</h4>123 Main StPh:" ++
    "id=\"fdresources\"").toList

/-- A page whose second address fragment is not a city/state/zip line. -/
def pageNoCSZ : Str :=
  ("id=\"fdcontact\"<h3>A</h3><h4>Contact Information:</h4>123 Main St<br />NowherePh:" ++
    "id=\"fdresources\"").toList

/-- A page whose `</h3>` comes before its `<h3>`. -/
def pageNameReversed : Str :=
  ("id=\"fdcontact\"</h3>A<h3><h4>Contact Information:</h4>1<br />T, OK 7Ph:" ++
    "id=\"fdresources\"").toList

/-- A page whose `Ph:` comes before the contact label. -/
def pageAddressReversed : Str :=
  ("id=\"fdcontact\"<h3>A</h3>Ph:<h4>Contact Information:</h4>1<br />T, OK 7" ++
    "id=\"fdresources\"").toList

/-- A page whose only stop marker comes before the start marker. -/
def pageStopFirst : Str := "id=\"fdresources\" id=\"fdcontact\"".toList

/-- A record stored under another name. -/
def otherRecord : FDRecord :=
  ⟨0, "Beta FD".toList, "County B".toList, "Chief Y".toList, "555-0003".toList,
    "555-0004".toList, [], [], [], [], []⟩

/-! ## Specification vocabulary -/

/-- The text `sub` occurs somewhere in `s`. -/
def Occurs (sub s : Str) : Prop := ∃ a b : Str, s = a ++ sub ++ b

/-- The shape of a city/state/zip line: a non-empty comma-free city text,
a comma, optional white space, exactly two upper-case letters, optional
white space, one or more digits, then anything. -/
def CSZShape (line : Str) : Prop :=
  ∃ city ws1 st ws2 digits rest : Str,
    line = city ++ [','] ++ ws1 ++ st ++ ws2 ++ digits ++ rest ∧
    city ≠ [] ∧ (∀ c ∈ city, c ≠ ',') ∧
    (∀ c ∈ ws1, reSpace c = true) ∧
    st.length = 2 ∧ (∀ c ∈ st, reUpper c = true) ∧
    (∀ c ∈ ws2, reSpace c = true) ∧
    digits ≠ [] ∧ (∀ c ∈ digits, reDigit c = true)

/-- Two texts are the same when letter case and spaces are ignored: they
are equal once lower-cased and with every space character taken out. -/
def sameIgnoringCaseAndSpaces (lower : Char → Char) (a b : Str) : Bool :=
  (ToLower lower a).filter (fun c => c != ' ') == (ToLower lower b).filter (fun c => c != ' ')

/-- Two texts are the same when letter case and white space are ignored on
both sides: they are equal once lower-cased and with every white-space
character taken out. -/
def sameIgnoringCaseAndWhitespace (lower : Char → Char) (a b : Str) : Bool :=
  (ToLower lower a).filter (fun c => !isSpace c) == (ToLower lower b).filter (fun c => !isSpace c)

/-! ## Lemmas on the string functions -/

theorem hasPrefix_iff (s p : Str) : HasPrefix s p = true ↔ ∃ t, s = p ++ t := by
  induction p generalizing s with
  | nil => cases s <;> simp [HasPrefix]
  | cons d p ih =>
    cases s with
    | nil => simp [HasPrefix]
    | cons c s =>
      simp only [HasPrefix, Bool.and_eq_true, beq_iff_eq, ih, List.cons_append, List.cons.injEq]
      constructor
      · rintro ⟨h, t, rfl⟩
        exact ⟨t, h, rfl⟩
      · rintro ⟨t, h, rfl⟩
        exact ⟨h, t, rfl⟩

theorem hasPrefix_length {s p : Str} (h : HasPrefix s p = true) : p.length ≤ s.length := by
  obtain ⟨t, rfl⟩ := (hasPrefix_iff s p).1 h
  simp

/-- `Index` returns an offset at which `sub` starts. -/
theorem index_some_hasPrefix {s sub : Str} {i : Nat} (h : Index s sub = some i) :
    HasPrefix (s.drop i) sub = true := by
  induction s generalizing i with
  | nil =>
    simp only [Index] at h
    split at h
    · cases h; simpa using ‹HasPrefix [] sub = true›
    · cases h
  | cons c s ih =>
    simp only [Index] at h
    split at h
    · cases h; simpa using ‹HasPrefix (c :: s) sub = true›
    · cases hs : Index s sub with
      | none => simp [hs] at h
      | some j =>
        simp [hs] at h
        subst h
        simpa using ih hs

/-- No occurrence starts before the offset that `Index` returns. -/
theorem index_some_first {s sub : Str} {i : Nat} (h : Index s sub = some i) :
    ∀ j, j < i → HasPrefix (s.drop j) sub = false := by
  induction s generalizing i with
  | nil =>
    simp only [Index] at h
    split at h
    · cases h; intro j hj; omega
    · cases h
  | cons c s ih =>
    simp only [Index] at h
    split at h
    · cases h; intro j hj; omega
    · rename_i hc
      cases hs : Index s sub with
      | none => simp [hs] at h
      | some k =>
        simp [hs] at h
        subst h
        intro j hj
        cases j with
        | zero => simpa using hc
        | succ j => simpa using ih hs j (by omega)

theorem index_some_le {s sub : Str} {i : Nat} (h : Index s sub = some i) :
    i + sub.length ≤ s.length := by
  have h1 := hasPrefix_length (index_some_hasPrefix h)
  simp only [List.length_drop] at h1
  by_cases hi : i ≤ s.length
  · omega
  · exfalso
    have h2 := index_some_hasPrefix h
    rw [List.drop_eq_nil_of_le (by omega)] at h2
    have h3 : HasPrefix (List.drop s.length s) sub = false :=
      index_some_first h s.length (by omega)
    rw [List.drop_eq_nil_of_le (le_refl _)] at h3
    rw [h2] at h3
    cases h3

theorem index_none_iff (s sub : Str) : Index s sub = none ↔ ¬ Occurs sub s := by
  induction s with
  | nil =>
    cases sub with
    | nil =>
      simp only [Index, HasPrefix, if_true]
      constructor
      · intro h; cases h
      · intro h; exact absurd ⟨[], [], rfl⟩ h
    | cons d p =>
      simp only [Index, HasPrefix]
      constructor
      · rintro - ⟨a, b, hab⟩
        have := congrArg List.length hab
        simp at this
        omega
      · intro _; rfl
  | cons c s ih =>
    simp only [Index]
    split
    · rename_i hp
      obtain ⟨t, ht⟩ := (hasPrefix_iff _ sub).1 hp
      constructor
      · intro h; cases h
      · intro h; exact absurd ⟨[], t, by simpa using ht⟩ h
    · rename_i hp
      cases hI : Index s sub with
      | some j =>
        have hocc : Occurs sub s := by
          by_contra hn
          rw [(ih).2 hn] at hI
          cases hI
        obtain ⟨a, b, hab⟩ := hocc
        constructor
        · intro h; cases h
        · intro h; exact absurd ⟨c :: a, b, by simp [hab]⟩ h
      | none =>
        have hn := ih.1 hI
        constructor
        · rintro - ⟨a, b, hab⟩
          cases a with
          | nil =>
            apply hp
            exact (hasPrefix_iff _ sub).2 ⟨b, by simpa using hab⟩
          | cons x a =>
            apply hn
            simp only [List.cons_append, List.cons.injEq] at hab
            exact ⟨a, b, by simpa using hab.2⟩
        · intro _; rfl

theorem index_isSome_iff (s sub : Str) : (Index s sub).isSome = true ↔ Occurs sub s := by
  rw [← not_iff_not, ← index_none_iff]
  cases Index s sub <;> simp

theorem slice_eq_some {s : Str} {lo hi : Nat} (h1 : lo ≤ hi) (h2 : hi ≤ s.length) :
    slice s lo hi = some ((s.take hi).drop lo) := by
  simp [slice, h1, h2]

/-! ## Lemmas on the map -/

theorem mapGet_mapSet_same (m : FDMap) (k : Str) (v : FDRecord) :
    mapGet (mapSet m k v) k = some v := by
  induction m with
  | nil => simp [mapSet, mapGet]
  | cons e m ih =>
    obtain ⟨k1, v1⟩ := e
    by_cases h : k1 = k
    · simp [mapSet, mapGet, h]
    · simp [mapSet, mapGet, h, ih]

theorem mapGet_mapSet_other (m : FDMap) (k k2 : Str) (v : FDRecord) (hk : k2 ≠ k) :
    mapGet (mapSet m k v) k2 = mapGet m k2 := by
  have hk3 : ¬ k = k2 := fun h => hk h.symm
  induction m with
  | nil => simp [mapSet, mapGet, hk3]
  | cons e m ih =>
    obtain ⟨k1, v1⟩ := e
    by_cases h : k1 = k
    · subst h
      simp [mapSet, mapGet, hk3]
    · by_cases h2 : k1 = k2
      · subst h2
        simp [mapSet, mapGet, h]
      · simp [mapSet, mapGet, h, h2, ih]

theorem mapKeys_mapSet_of_mem (m : FDMap) (k : Str) (v f : FDRecord)
    (h : mapGet m k = some f) : mapKeys (mapSet m k v) = mapKeys m := by
  induction m with
  | nil => simp [mapGet] at h
  | cons e m ih =>
    obtain ⟨k1, v1⟩ := e
    by_cases hk : k1 = k
    · simp [mapSet, mapKeys, hk]
    · simp only [mapGet, hk, if_false] at h
      have := ih h
      simp only [mapKeys] at this
      simp [mapSet, mapKeys, hk, this]

theorem mapGet_none_iff (m : FDMap) (k : Str) : mapGet m k = none ↔ k ∉ mapKeys m := by
  induction m with
  | nil =>
    constructor
    · intro _ h; cases h
    · intro _; rfl
  | cons e m ih =>
    obtain ⟨k1, v1⟩ := e
    have hkeys : mapKeys ((k1, v1) :: m) = k1 :: mapKeys m := rfl
    rw [hkeys, List.mem_cons]
    by_cases hk : k1 = k
    · subst hk
      simp only [mapGet, if_true]
      constructor
      · intro h; cases h
      · intro h; exact absurd (Or.inl trivial) h
    · have hk2 : ¬ k = k1 := fun h => hk h.symm
      simp only [mapGet, hk, if_false, ih]
      constructor
      · rintro h (h1 | h1)
        · exact hk2 h1
        · exact h h1
      · intro h h1
        exact h (Or.inr h1)

theorem drop_getElem?_zero {s t : Str} {c : Char} {i : Nat} (h : s.drop i = c :: t) :
    s[i]? = some c := by
  have := List.getElem?_drop (L := s) (i := i) (j := 0)
  rw [h] at this
  simpa using this.symm

theorem drop_getElem?_of_append {s p t : Str} {i : Nat} (h : s.drop i = p ++ t) (n : Nat)
    (hn : n < p.length) : s[i + n]? = p[n]? := by
  have := List.getElem?_drop (L := s) (i := i) (j := n)
  rw [h, List.getElem?_append_left hn] at this
  exact this.symm

/-- An opening `<h3>` that starts before a closing `</h3>` also ends before it. -/
theorem nameOpen_ends_before {s : Str} {j1 j2 : Nat}
    (h1 : HasPrefix (s.drop j1) nameOpen = true) (h2 : HasPrefix (s.drop j2) nameClose = true)
    (hlt : j1 < j2) : j1 + 4 ≤ j2 := by
  obtain ⟨t1, e1⟩ := (hasPrefix_iff _ _).1 h1
  obtain ⟨t2, e2⟩ := (hasPrefix_iff _ _).1 h2
  have c2 : s[j2]? = some '<' := drop_getElem?_zero (t := "/h3>".toList ++ t2) e2
  have a1 := drop_getElem?_of_append e1 1 (by decide)
  have a2 := drop_getElem?_of_append e1 2 (by decide)
  have a3 := drop_getElem?_of_append e1 3 (by decide)
  by_contra hn
  have hcase : j2 = j1 + 1 ∨ j2 = j1 + 2 ∨ j2 = j1 + 3 := by omega
  rcases hcase with h | h | h
  · rw [h, a1] at c2; exact absurd c2 (by decide)
  · rw [h, a2] at c2; exact absurd c2 (by decide)
  · rw [h, a3] at c2; exact absurd c2 (by decide)

/-- The section `src[i1:i2]` exists when the start marker is not after the
stop marker. -/
theorem section_slice {src : Str} {i1 i2 : Nat} (h2 : Index src markStop = some i2)
    (hle : i1 ≤ i2) : slice src i1 i2 = some ((src.take i2).drop i1) := by
  have := index_some_le h2
  exact slice_eq_some hle (by omega)

/-! ## Lemmas on the pattern matcher -/

theorem reTry_some {cont : Str → Option (List Str)} {cap : Bool} {lo : Nat} {s : Str}
    {n : Nat} {r : List Str} (h : reTry cont cap lo s n = some r) :
    ∃ k gs, lo ≤ k ∧ k ≤ n ∧ cont (s.drop k) = some gs ∧
      r = if cap then s.take k :: gs else gs := by
  induction n with
  | zero =>
    simp only [reTry] at h
    split at h
    · rename_i hlo
      cases hc : cont s with
      | none => simp [hc] at h
      | some gs =>
        simp only [hc, Option.map_some', Option.some.injEq] at h
        exact ⟨0, gs, by omega, le_refl _, by simpa using hc, by simpa using h.symm⟩
    · cases h
  | succ n ih =>
    simp only [reTry] at h
    split at h
    · rename_i hlo
      cases hc : cont (s.drop (n + 1)) with
      | none =>
        simp only [hc] at h
        obtain ⟨k, gs, h1, h2, h3, h4⟩ := ih h
        exact ⟨k, gs, h1, by omega, h3, h4⟩
      | some gs =>
        simp only [hc, Option.some.injEq] at h
        exact ⟨n + 1, gs, hlo, le_refl _, hc, h.symm⟩
    · cases h

theorem reTry_top {cont : Str → Option (List Str)} {cap : Bool} {lo : Nat} {s : Str}
    {n : Nat} {gs : List Str} (hlo : lo ≤ n) (h : cont (s.drop n) = some gs) :
    reTry cont cap lo s n = some (if cap then s.take n :: gs else gs) := by
  cases n with
  | zero =>
    have h0 : lo = 0 := by omega
    simp only [List.drop_zero] at h
    simp [reTry, h0, h]
  | succ n => simp [reTry, hlo, h]

theorem capRun_le (max : Option Nat) (n : Nat) : capRun max n ≤ n := by
  cases max with
  | none => simp [capRun]
  | some m =>
    simp only [capRun]
    split <;> omega

theorem capRun_le_max (m n : Nat) : capRun (some m) n ≤ m := by
  simp only [capRun]
  split <;> omega

theorem runLen_le_length (p : Char → Bool) (s : Str) : runLen p s ≤ s.length := by
  induction s with
  | nil => simp [runLen]
  | cons c s ih =>
    simp only [runLen]
    split
    · simp; omega
    · simp

theorem take_of_le_runLen (p : Char → Bool) (s : Str) (k : Nat) (h : k ≤ runLen p s) :
    ∀ c ∈ s.take k, p c = true := by
  induction s generalizing k with
  | nil => simp
  | cons x s ih =>
    cases k with
    | zero => simp
    | succ k =>
      simp only [runLen] at h
      split at h
      · rename_i hx
        intro c hc
        simp only [List.take_succ_cons, List.mem_cons] at hc
        rcases hc with rfl | hc
        · exact hx
        · exact ih k (by omega) c hc
      · omega

theorem runLen_append (p : Char → Bool) (xs ys : Str) (hx : ∀ c ∈ xs, p c = true)
    (hy : ∀ c, ys.head? = some c → p c = false) : runLen p (xs ++ ys) = xs.length := by
  induction xs with
  | nil =>
    cases ys with
    | nil => simp [runLen]
    | cons y ys =>
      have := hy y rfl
      simp [runLen, this]
  | cons x xs ih =>
    have h1 := hx x (List.mem_cons_self _ _)
    have h2 := ih (fun c hc => hx c (List.mem_cons_of_mem _ hc))
    simp [runLen, h1, h2]

/-- One step of `reMatch`: a successful match splits off a run of the first
class whose length is within the bounds of the repetition. -/
theorem reMatch_cons_some {it : ReItem} {its : List ReItem} {s : Str} {r : List Str}
    (h : reMatch (it :: its) s = some r) :
    ∃ k gs, it.min ≤ k ∧ k ≤ runLen it.cls s ∧ (∀ m, it.max = some m → k ≤ m) ∧
      reMatch its (s.drop k) = some gs ∧
      r = if it.capture then s.take k :: gs else gs := by
  simp only [reMatch] at h
  obtain ⟨k, gs, h1, h2, h3, h4⟩ := reTry_some h
  refine ⟨k, gs, h1, le_trans h2 (capRun_le _ _), ?_, h3, h4⟩
  intro m hm
  rw [hm] at h2
  exact le_trans h2 (capRun_le_max _ _)

theorem take_length_of_le_runLen (p : Char → Bool) (s : Str) (k : Nat)
    (h : k ≤ runLen p s) : (s.take k).length = k := by
  have := runLen_le_length p s
  rw [List.length_take]
  omega

/-- A match of `reCSZ` cuts the line into city, comma, white space, state,
white space, digits and a rest; the groups are city, state and digits. -/
theorem reCSZ_some {s : Str} {r : List Str} (h : reMatch reCSZ s = some r) :
    ∃ city ws1 st ws2 digits rest : Str,
      s = city ++ [','] ++ ws1 ++ st ++ ws2 ++ digits ++ rest ∧
      city ≠ [] ∧ (∀ c ∈ city, c ≠ ',') ∧
      (∀ c ∈ ws1, reSpace c = true) ∧
      st.length = 2 ∧ (∀ c ∈ st, reUpper c = true) ∧
      (∀ c ∈ ws2, reSpace c = true) ∧
      digits ≠ [] ∧ (∀ c ∈ digits, reDigit c = true) ∧
      r = [city, st, digits] := by
  unfold reCSZ at h
  obtain ⟨k1, g1, m1, r1, -, c1, e1⟩ := reMatch_cons_some h
  obtain ⟨k2, g2, m2, r2, x2, c2, e2⟩ := reMatch_cons_some c1
  obtain ⟨k3, g3, -, r3, -, c3, e3⟩ := reMatch_cons_some c2
  obtain ⟨k4, g4, m4, r4, x4, c4, e4⟩ := reMatch_cons_some c3
  obtain ⟨k5, g5, -, r5, -, c5, e5⟩ := reMatch_cons_some c4
  obtain ⟨k6, g6, m6, r6, -, c6, e6⟩ := reMatch_cons_some c5
  simp only [reMatch, Option.some.injEq] at c6
  simp only at m1 r1 e1 m2 r2 x2 e2 r3 e3 m4 r4 x4 e4 r5 e5 m6 r6 e6
  have hk2 : k2 = 1 := le_antisymm (x2 1 rfl) m2
  have hk4 : k4 = 2 := le_antisymm (x4 2 rfl) m4
  subst hk2 hk4
  generalize hs1 : s.drop k1 = s1 at *
  generalize hs2 : s1.drop 1 = s2 at *
  generalize hs3 : s2.drop k3 = s3 at *
  generalize hs4 : s3.drop 2 = s4 at *
  generalize hs5 : s4.drop k5 = s5 at *
  have l1 := take_length_of_le_runLen _ _ _ r1
  have l2 := take_length_of_le_runLen _ _ _ r2
  have l4 := take_length_of_le_runLen _ _ _ r4
  have l6 := take_length_of_le_runLen _ _ _ r6
  have hcomma : s1.take 1 = [','] := by
    have hall := take_of_le_runLen _ _ _ r2
    cases hs : s1.take 1 with
    | nil => rw [hs] at l2; cases l2
    | cons x xs =>
      rw [hs] at l2 hall
      have hx := hall x (List.mem_cons_self _ _)
      simp only [isComma, beq_iff_eq] at hx
      have hxs : xs = [] := List.length_eq_zero.1 (by simpa using l2)
      rw [hx, hxs]
  refine ⟨s.take k1, s2.take k3, s3.take 2, s4.take k5, s5.take k6, s5.drop k6, ?_,
    ?_, ?_, take_of_le_runLen _ _ _ r3, l4, take_of_le_runLen _ _ _ r4,
    take_of_le_runLen _ _ _ r5, ?_, take_of_le_runLen _ _ _ r6, ?_⟩
  · have a1 := List.take_append_drop k1 s
    have a2 := List.take_append_drop 1 s1
    have a3 := List.take_append_drop k3 s2
    have a4 := List.take_append_drop 2 s3
    have a5 := List.take_append_drop k5 s4
    have a6 := List.take_append_drop k6 s5
    rw [hs1] at a1
    rw [hs2, hcomma] at a2
    rw [hs3] at a3
    rw [hs4] at a4
    rw [hs5] at a5
    simp only [List.append_assoc]
    rw [a6, a5, a4, a3, a2, a1]
  · intro hnil
    rw [hnil] at l1
    simp at l1
    omega
  · intro c hc
    have := take_of_le_runLen _ _ _ r1 c hc
    simpa [notComma] using this
  · intro hnil
    rw [hnil] at l6
    simp at l6
    omega
  · subst c6
    simp [e1, e2, e3, e4, e5, e6]

theorem reMatch_cons_greedy (it : ReItem) (its : List ReItem) (xs ys : Str) (gs : List Str)
    (hn : capRun it.max (runLen it.cls (xs ++ ys)) = xs.length) (hmin : it.min ≤ xs.length)
    (hrest : reMatch its ys = some gs) :
    reMatch (it :: its) (xs ++ ys) = some (if it.capture then xs :: gs else gs) := by
  simp only [reMatch]
  rw [hn]
  have h : reTry (reMatch its) it.capture it.min (xs ++ ys) xs.length
      = some (if it.capture then (xs ++ ys).take xs.length :: gs else gs) :=
    reTry_top hmin (by simpa using hrest)
  simpa using h

theorem reUpper_toNat {c : Char} (h : reUpper c = true) : 65 ≤ c.toNat ∧ c.toNat ≤ 90 := by
  simpa [reUpper] using h

theorem reDigit_toNat {c : Char} (h : reDigit c = true) : 48 ≤ c.toNat ∧ c.toNat ≤ 57 := by
  simpa [reDigit] using h

theorem reSpace_toNat {c : Char} (h : reSpace c = true) : c.toNat ≤ 32 := by
  simp only [reSpace, Bool.or_eq_true, decide_eq_true_eq] at h
  omega

theorem reSpace_false_of_le {c : Char} (h : 33 ≤ c.toNat) : reSpace c = false := by
  cases hs : reSpace c with
  | false => rfl
  | true => have := reSpace_toNat hs; omega

theorem isSpace_false_of_range {c : Char} (h1 : 33 ≤ c.toNat) (h2 : c.toNat ≤ 127) :
    isSpace c = false := by
  cases hs : isSpace c with
  | false => rfl
  | true =>
    simp only [isSpace, Bool.or_eq_true, Bool.and_eq_true, decide_eq_true_eq] at hs
    omega

/-! ## Lemmas on `TrimSpace` and `csvQuote` -/

theorem dropWhile_eq_self_of_head (p : Char → Bool) (s : Str)
    (h : ∀ c, s.head? = some c → p c = false) : s.dropWhile p = s := by
  cases s with
  | nil => rfl
  | cons x xs =>
    have := h x rfl
    simp [List.dropWhile, this]

theorem head_dropWhile_false (p : Char → Bool) (s : Str) :
    ∀ c, (s.dropWhile p).head? = some c → p c = false := by
  induction s with
  | nil => intro c h; cases h
  | cons x xs ih =>
    intro c h
    cases hx : p x with
    | true =>
      simp only [List.dropWhile, hx] at h
      exact ih c h
    | false =>
      simp only [List.dropWhile, hx, List.head?_cons, Option.some.injEq] at h
      rw [← h]
      exact hx

theorem mem_of_mem_dropWhile (p : Char → Bool) (s : Str) (c : Char)
    (h : c ∈ s.dropWhile p) : c ∈ s :=
  (List.dropWhile_suffix p).subset h

theorem mem_TrimSpace {s : Str} {c : Char} (h : c ∈ TrimSpace s) : c ∈ s := by
  unfold TrimSpace at h
  rw [List.mem_reverse] at h
  have h1 := mem_of_mem_dropWhile _ _ _ h
  rw [List.mem_reverse] at h1
  exact mem_of_mem_dropWhile _ _ _ h1

theorem TrimSpace_eq_self {s : Str} (h : ∀ c ∈ s, isSpace c = false) : TrimSpace s = s := by
  unfold TrimSpace
  have h1 : s.dropWhile isSpace = s := by
    apply dropWhile_eq_self_of_head
    intro c hc
    exact h c (List.mem_of_mem_head? hc)
  rw [h1]
  have h2 : s.reverse.dropWhile isSpace = s.reverse := by
    apply dropWhile_eq_self_of_head
    intro c hc
    exact h c (List.mem_reverse.1 (List.mem_of_mem_head? hc))
  rw [h2, List.reverse_reverse]

theorem head_of_append_ne_nil (u v : Str) (hu : u ≠ []) : (u ++ v).head? = u.head? := by
  cases u with
  | nil => exact absurd rfl hu
  | cons x xs => rfl

theorem TrimSpace_idem (s : Str) : TrimSpace (TrimSpace s) = TrimSpace s := by
  have hpre : ∃ v, s.dropWhile isSpace = TrimSpace s ++ v := by
    unfold TrimSpace
    obtain ⟨w, hw⟩ := List.dropWhile_suffix (l := (s.dropWhile isSpace).reverse) isSpace
    refine ⟨w.reverse, ?_⟩
    have := congrArg List.reverse hw
    simp only [List.reverse_append, List.reverse_reverse] at this
    exact this.symm
  obtain ⟨v, hv⟩ := hpre
  have hhead : ∀ c, (TrimSpace s).head? = some c → isSpace c = false := by
    intro c hc
    by_cases hnil : TrimSpace s = []
    · rw [hnil] at hc; cases hc
    · apply head_dropWhile_false isSpace s c
      rw [hv, head_of_append_ne_nil _ _ hnil]
      exact hc
  have hlast : ∀ c, (TrimSpace s).reverse.head? = some c → isSpace c = false := by
    intro c hc
    apply head_dropWhile_false isSpace (s.dropWhile isSpace).reverse c
    simpa [TrimSpace] using hc
  show ((List.dropWhile isSpace (TrimSpace s)).reverse.dropWhile isSpace).reverse = TrimSpace s
  rw [dropWhile_eq_self_of_head _ _ hhead, dropWhile_eq_self_of_head _ _ hlast,
    List.reverse_reverse]

theorem LastIndex_single_none {s : Str} {c : Char} (h : c ∉ s) : LastIndex s [c] = none := by
  induction s with
  | nil => simp [LastIndex, HasPrefix]
  | cons x xs ih =>
    have h1 : c ∉ xs := fun hm => h (List.mem_cons_of_mem _ hm)
    have h2 : ¬ x = c := fun he => h (by rw [he]; exact List.mem_cons_self _ _)
    simp [LastIndex, ih h1, HasPrefix, h2]

theorem csvQuote_eq_self {s : Str} (h : ',' ∉ s) : csvQuote s = s := by
  have h1 : ',' ∉ Stripchars s "\"".toList := by
    intro hm
    exact h (List.mem_of_mem_filter hm)
  have h2 : LastIndex (Stripchars s "\"".toList) ",".toList = none := LastIndex_single_none h1
  simp only [csvQuote, h2]

theorem CSZShape_mem_comma {line : Str} (h : CSZShape line) : ',' ∈ line := by
  obtain ⟨city, ws1, st, ws2, digits, rest, h1, -⟩ := h
  rw [h1]
  simp

/-- An item that needs at least one character of its class does not match a
text that starts with a character outside the class. -/
theorem reMatch_cons_none_of_head (it : ReItem) (its : List ReItem) (s : Str)
    (hmin : 1 ≤ it.min) (hhead : ∀ c, s.head? = some c → it.cls c = false) :
    reMatch (it :: its) s = none := by
  cases hm : reMatch (it :: its) s with
  | none => rfl
  | some r =>
    exfalso
    obtain ⟨k, gs, h1, h2, -⟩ := reMatch_cons_some hm
    have h0 : runLen it.cls s = 0 := by
      cases s with
      | nil => rfl
      | cons x xs => simp [runLen, hhead x rfl]
    omega

/-- Inside a run, the text left after fewer characters than the whole run
still starts with a character of the run. -/
theorem head_drop_of_lt (xs ys : Str) (k : Nat) (hk : k < xs.length) :
    ∃ x, x ∈ xs ∧ ((xs ++ ys).drop k).head? = some x := by
  induction xs generalizing k with
  | nil => simp at hk
  | cons x xs ih =>
    cases k with
    | zero => exact ⟨x, List.mem_cons_self _ _, rfl⟩
    | succ k =>
      obtain ⟨y, hy, hd⟩ := ih k (by simpa using hk)
      exact ⟨y, List.mem_cons_of_mem _ hy, by simpa using hd⟩

/-- Determinism of one greedy step: when the next item cannot start inside
the run `xs`, a match of `it :: nxt :: its` on `xs ++ ys` takes the whole
run. -/
theorem reMatch_cons_whole_run (it nxt : ReItem) (its : List ReItem) (xs ys : Str)
    (r : List Str) (hx : ∀ c ∈ xs, it.cls c = true)
    (hy : ∀ c, ys.head? = some c → it.cls c = false)
    (hnxt : 1 ≤ nxt.min) (hdisj : ∀ c ∈ xs, nxt.cls c = false)
    (h : reMatch (it :: nxt :: its) (xs ++ ys) = some r) :
    ∃ gs, reMatch (nxt :: its) ys = some gs := by
  obtain ⟨k, gs, -, h2, -, h4, -⟩ := reMatch_cons_some h
  rw [runLen_append _ _ _ hx hy] at h2
  rcases Nat.lt_or_ge k xs.length with hlt | hge
  · exfalso
    obtain ⟨x, hxm, hd⟩ := head_drop_of_lt xs ys k hlt
    have hnone := reMatch_cons_none_of_head nxt its ((xs ++ ys).drop k) hnxt (by
      intro c hc
      rw [hd] at hc
      cases hc
      exact hdisj x hxm)
    rw [hnone] at h4
    cases h4
  · have hk : k = xs.length := le_antisymm h2 hge
    subst hk
    exact ⟨gs, by simpa using h4⟩

/-- Three upper-case letters where the state is expected: no match. -/
theorem reMatch_three_upper (city ws1 tail : Str) (a b c : Char)
    (hcity : ∀ x ∈ city, x ≠ ',') (hws : ∀ x ∈ ws1, reSpace x = true)
    (ha : reUpper a = true) (hb : reUpper b = true) (hc : reUpper c = true) :
    reMatch reCSZ (city ++ [','] ++ ws1 ++ [a, b, c] ++ tail) = none := by
  have hA := reUpper_toNat ha
  have hB := reUpper_toNat hb
  have hC := reUpper_toNat hc
  cases hm : reMatch reCSZ (city ++ [','] ++ ws1 ++ [a, b, c] ++ tail) with
  | none => rfl
  | some r =>
    exfalso
    have hline : city ++ [','] ++ ws1 ++ [a, b, c] ++ tail
        = city ++ ([','] ++ (ws1 ++ ([a, b] ++ (c :: tail)))) := by
      simp only [List.append_assoc, List.cons_append, List.nil_append]
    rw [hline] at hm
    unfold reCSZ at hm
    obtain ⟨g1, e1⟩ := reMatch_cons_whole_run _ _ _ city _ r
      (fun x hx => by simpa [notComma] using hcity x hx)
      (fun x hx => by
        simp only [List.cons_append, List.head?_cons, Option.some.injEq] at hx
        subst hx
        simp [notComma])
      (le_refl _)
      (fun x hx => by simpa [isComma] using hcity x hx) hm
    obtain ⟨k2, g2, m2, -, x2, c2, -⟩ := reMatch_cons_some e1
    have hk2 : k2 = 1 := le_antisymm (x2 1 rfl) m2
    subst hk2
    simp only [List.cons_append, List.nil_append, List.drop_succ_cons, List.drop_zero] at c2
    obtain ⟨g3, e3⟩ := reMatch_cons_whole_run _ _ _ ws1 (a :: b :: c :: tail) g2 hws
      (fun x hx => by
        simp only [List.head?_cons, Option.some.injEq] at hx
        subst hx
        exact reSpace_false_of_le (by omega))
      (by decide)
      (fun x hx => by
        have := reSpace_toNat (hws x hx)
        cases hu : reUpper x with
        | false => exact hu
        | true => have := reUpper_toNat hu; omega) c2
    obtain ⟨k4, g4, m4, -, x4, c4, -⟩ := reMatch_cons_some e3
    have hk4 : k4 = 2 := le_antisymm (x4 2 rfl) m4
    subst hk4
    simp only [List.drop_succ_cons, List.drop_zero] at c4
    obtain ⟨k5, g5, -, r5, -, c5, -⟩ := reMatch_cons_some c4
    have hk5 : k5 = 0 := by
      have h0 : runLen reSpace (c :: tail) = 0 := by
        simp [runLen, reSpace_false_of_le (c := c) (by omega)]
      simp only at r5
      omega
    subst hk5
    simp only [List.drop_zero] at c5
    have hnone := reMatch_cons_none_of_head ⟨reDigit, 1, none, true⟩ [] (c :: tail) (le_refl _)
      (fun x hx => by
        simp only [List.head?_cons, Option.some.injEq] at hx
        subst hx
        cases hd : reDigit c with
        | false => exact hd
        | true => have := reDigit_toNat hd; omega)
    rw [hnone] at c5
    cases c5

/-! ## Claims on the city/state/zip pattern -/

/-- C7: for every line made of a non-empty comma-free city text, a comma,
optional white space (the class `\s` of the pattern), exactly two
upper-case ASCII letters, optional white space, one or more digits and a
trailing content that does not begin with a digit, `reCSZ` has exactly one
match, at the start of the line, with groups (city, the two letters, the
digits); the triple that `scrapeHTML` stores from it is the city with
surrounding white space trimmed, the two letters and the run of digits,
whatever the trailing content is. -/
theorem reCSZ_match_shaped (city ws1 ws2 digits rest : Str) (a b : Char)
    (hcity : city ≠ []) (hc : ∀ c ∈ city, c ≠ ',')
    (hw1 : ∀ c ∈ ws1, reSpace c = true)
    (ha : reUpper a = true) (hb : reUpper b = true)
    (hw2 : ∀ c ∈ ws2, reSpace c = true)
    (hd : digits ≠ []) (hdd : ∀ c ∈ digits, reDigit c = true)
    (hrest : ∀ c, rest.head? = some c → reDigit c = false) :
    FindAllStringSubmatch reCSZ (city ++ [','] ++ ws1 ++ [a, b] ++ ws2 ++ digits ++ rest)
        = [[city, [a, b], digits]] ∧
      (csvQuote (TrimSpace city), csvQuote (TrimSpace [a, b]), csvQuote (TrimSpace digits))
        = (TrimSpace city, [a, b], digits) := by
  have hA := reUpper_toNat ha
  have hB := reUpper_toNat hb
  constructor
  · have e6 : reMatch [⟨reDigit, 1, none, true⟩] (digits ++ rest) = some [digits] := by
      have := reMatch_cons_greedy ⟨reDigit, 1, none, true⟩ [] digits rest []
        (by simp only [capRun]; exact runLen_append _ _ _ hdd hrest)
        (by cases digits with
            | nil => exact absurd rfl hd
            | cons x xs => simp)
        rfl
      simpa using this
    have e5 := reMatch_cons_greedy ⟨reSpace, 0, none, false⟩ _ ws2 (digits ++ rest) _
      (by
        simp only [capRun]
        apply runLen_append _ _ _ hw2
        intro c hc
        cases digits with
        | nil => exact absurd rfl hd
        | cons x xs =>
          simp only [List.cons_append, List.head?_cons, Option.some.injEq] at hc
          subst hc
          have := reDigit_toNat (hdd x (List.mem_cons_self _ _))
          exact reSpace_false_of_le (by omega))
      (Nat.zero_le _) e6
    have e4 := reMatch_cons_greedy ⟨reUpper, 2, some 2, true⟩ _ [a, b]
      (ws2 ++ (digits ++ rest)) _
      (by simp [capRun, runLen, ha, hb])
      (le_refl _) e5
    have e3 := reMatch_cons_greedy ⟨reSpace, 0, none, false⟩ _ ws1
      ([a, b] ++ (ws2 ++ (digits ++ rest))) _
      (by
        simp only [capRun]
        apply runLen_append _ _ _ hw1
        intro c hc
        simp only [List.cons_append, List.head?_cons, Option.some.injEq] at hc
        subst hc
        exact reSpace_false_of_le (by omega))
      (Nat.zero_le _) e4
    have e2 := reMatch_cons_greedy ⟨isComma, 1, some 1, false⟩ _ [',']
      (ws1 ++ ([a, b] ++ (ws2 ++ (digits ++ rest)))) _
      (by simp [capRun, runLen, isComma])
      (le_refl _) e3
    have e1 := reMatch_cons_greedy ⟨notComma, 1, none, true⟩ _ city
      ([','] ++ (ws1 ++ ([a, b] ++ (ws2 ++ (digits ++ rest))))) _
      (by
        simp only [capRun]
        apply runLen_append
        · intro c hc1
          simpa [notComma] using hc c hc1
        · intro c hc1
          simp only [List.cons_append, List.head?_cons, Option.some.injEq] at hc1
          subst hc1
          simp [notComma])
      (by cases city with
          | nil => exact absurd rfl hcity
          | cons x xs => simp)
      e2
    have hline : city ++ [','] ++ ws1 ++ [a, b] ++ ws2 ++ digits ++ rest
        = city ++ ([','] ++ (ws1 ++ ([a, b] ++ (ws2 ++ (digits ++ rest))))) := by
      simp only [List.append_assoc]
    simp only [FindAllStringSubmatch, hline]
    have e1b : reMatch reCSZ (city ++ ([','] ++ (ws1 ++ ([a, b] ++ (ws2 ++ (digits ++ rest))))))
        = some [city, [a, b], digits] := by
      simpa [reCSZ] using e1
    rw [e1b]
  · have t1 : TrimSpace [a, b] = [a, b] := by
      apply TrimSpace_eq_self
      intro c hc1
      simp only [List.mem_cons, List.mem_singleton, List.not_mem_nil, or_false] at hc1
      rcases hc1 with rfl | rfl
      · exact isSpace_false_of_range (by omega) (by omega)
      · exact isSpace_false_of_range (by omega) (by omega)
    have t2 : TrimSpace digits = digits := by
      apply TrimSpace_eq_self
      intro c hc1
      have := reDigit_toNat (hdd c hc1)
      exact isSpace_false_of_range (by omega) (by omega)
    have q1 : csvQuote (TrimSpace city) = TrimSpace city := by
      apply csvQuote_eq_self
      intro hm
      exact hc _ (mem_TrimSpace hm) rfl
    have q2 : csvQuote [a, b] = [a, b] := by
      apply csvQuote_eq_self
      intro hm
      simp only [List.mem_cons, List.mem_singleton, List.not_mem_nil, or_false] at hm
      rcases hm with h | h
      · rw [← h] at hA; exact absurd hA (by decide)
      · rw [← h] at hB; exact absurd hB (by decide)
    have q3 : csvQuote digits = digits := by
      apply csvQuote_eq_self
      intro hm
      have := reDigit_toNat (hdd _ hm)
      exact absurd this (by decide)
    rw [t1, t2, q1, q2, q3]

/-- Witness of C7: `"Oklahoma City, OK 73102"` gives
`("Oklahoma City", "OK", "73102")`. -/
theorem reCSZ_match_shaped_witness :
    FindAllStringSubmatch reCSZ "Oklahoma City, OK 73102".toList
        = [["Oklahoma City".toList, "OK".toList, "73102".toList]] ∧
      (csvQuote (TrimSpace "Oklahoma City".toList), csvQuote (TrimSpace "OK".toList),
        csvQuote (TrimSpace "73102".toList))
        = ("Oklahoma City".toList, "OK".toList, "73102".toList) := by
  have h := reCSZ_match_shaped "Oklahoma City".toList " ".toList " ".toList "73102".toList []
    'O' 'K' (by decide) (by decide) (by decide) (by decide) (by decide) (by decide)
    (by decide) (by decide) (by decide)
  have ht : TrimSpace "Oklahoma City".toList = "Oklahoma City".toList := by decide
  rw [ht] at h
  exact h

/-- C8: every line that is not of the city/state/zip shape (a non-empty
comma-free text, a comma, optional white space, exactly two upper-case
letters, optional white space, one or more digits) has no match of
`reCSZ`, so no city/state/postal-code triple is produced; in particular
every line without a comma has no match, and every line with three
upper-case letters where the state is expected has no match. -/
theorem reCSZ_no_match (line : Str) :
    (¬ CSZShape line → FindAllStringSubmatch reCSZ line = []) ∧
    (',' ∉ line → FindAllStringSubmatch reCSZ line = []) ∧
    (∀ city ws1 tail : Str, ∀ a b c : Char,
      line = city ++ [','] ++ ws1 ++ [a, b, c] ++ tail →
      (∀ x ∈ city, x ≠ ',') → (∀ x ∈ ws1, reSpace x = true) →
      reUpper a = true → reUpper b = true → reUpper c = true →
      FindAllStringSubmatch reCSZ line = []) := by
  have main : ¬ CSZShape line → FindAllStringSubmatch reCSZ line = [] := by
    intro hns
    cases hm : reMatch reCSZ line with
    | none => simp [FindAllStringSubmatch, hm]
    | some r =>
      exfalso
      obtain ⟨city, ws1, st, ws2, digits, rest, h1, h2, h3, h4, h5, h6, h7, h8, h9, -⟩ :=
        reCSZ_some hm
      exact hns ⟨city, ws1, st, ws2, digits, rest, h1, h2, h3, h4, h5, h6, h7, h8, h9⟩
  refine ⟨main, ?_, ?_⟩
  · intro hnc
    exact main (fun hs => hnc (CSZShape_mem_comma hs))
  · intro city ws1 tail a b c hline hcity hws ha hb hc
    have := reMatch_three_upper city ws1 tail a b c hcity hws ha hb hc
    rw [hline]
    simp only [FindAllStringSubmatch, this]

/-- Witness of C8: `"Nowhere"`, `"Tulsa OK 74000"` and `"Tulsa, OKC 74000"`
have no match. -/
theorem reCSZ_no_match_witness :
    FindAllStringSubmatch reCSZ "Nowhere".toList = [] ∧
    FindAllStringSubmatch reCSZ "Tulsa OK 74000".toList = [] ∧
    FindAllStringSubmatch reCSZ "Tulsa, OKC 74000".toList = [] :=
  ⟨(reCSZ_no_match "Nowhere".toList).1
     (fun hs => absurd (CSZShape_mem_comma hs) (by decide)),
   (reCSZ_no_match "Tulsa OK 74000".toList).2.1 (by decide),
   (reCSZ_no_match "Tulsa, OKC 74000".toList).2.2 "Tulsa".toList " ".toList " 74000".toList
     'O' 'K' 'C' (by decide) (by decide) (by decide) (by decide) (by decide) (by decide)⟩

/-! ## The successful path of `scrapeHTML` -/

/-- On a well-formed page `scrapeHTML` reaches the look-up of the name: the
status is 5 when the name is not in the map, and 0 with the entry updated
otherwise. -/
theorem scrapeHTML_wellformed (st : FDMap) (page : Str) (id : Int)
    (i1 i2 j1 j2 k1 k2 : Nat) (a0 a1 : Str) (rest : List Str) (city state zip : Str)
    (hi1 : Index page markStart = some i1) (hi2 : Index page markStop = some i2)
    (hle : i1 ≤ i2)
    (hj1 : Index ((page.take i2).drop i1) nameOpen = some j1)
    (hj2 : Index ((page.take i2).drop i1) nameClose = some j2) (hlt : j1 < j2)
    (hk1 : Index ((page.take i2).drop i1) target = some k1)
    (hk2 : Index ((page.take i2).drop i1) phMark = some k2)
    (hk : k1 + target.length ≤ k2)
    (hsplit : Split ((((page.take i2).drop i1).take k2).drop (k1 + target.length)) brSep
      = a0 :: a1 :: rest)
    (hre : reMatch reCSZ (TrimSpace a1) = some [city, state, zip]) :
    scrapeHTML st page id =
      match mapGet st (TrimSpace ((((page.take i2).drop i1).take j2).drop (j1 + 4))) with
      | none => some (5, st)
      | some f =>
        some (0, mapSet st (TrimSpace ((((page.take i2).drop i1).take j2).drop (j1 + 4)))
          { f with
            FDID := id
            Address := csvQuote (TrimSpace a0)
            City := csvQuote (TrimSpace city)
            State := csvQuote (TrimSpace state)
            PostalCode := csvQuote (TrimSpace zip) }) := by
  have hs := section_slice hi2 hle
  have hj := nameOpen_ends_before (index_some_hasPrefix hj1) (index_some_hasPrefix hj2) hlt
  have hnm : slice ((page.take i2).drop i1) (j1 + 4) j2 = some _ :=
    slice_eq_some hj (by have := index_some_le hj2; omega)
  have hraw : slice ((page.take i2).drop i1) (k1 + target.length) k2 = some _ :=
    slice_eq_some hk (by have := index_some_le hk2; omega)
  simp only [scrapeHTML, hi1, hi2, hs, hj1, hj2, hnm, hk1, hk2, hraw, hsplit, List.map_cons,
    List.get?_cons_succ, List.get?_cons_zero, FindAllStringSubmatch, hre, TrimSpace_idem]

/-- A data row (any line but the first) with at least as many fields as the
schema passes the validation. -/
theorem validate_data_row (lower : Char → Char) (cols : List CSVColumn) (sa : List Str)
    (fn : Str) (lineno : Int) (hline : lineno ≠ 1) (hlen : cols.length ≤ sa.length) :
    ValidateCSVColumnsErr lower cols sa fn lineno = (false, none) := by
  have h1 : ¬ sa.length < cols.length := by omega
  simp only [ValidateCSVColumnsErr, h1, hline, if_false]

/-- What `processfd` does with a data row of at least five fields. -/
theorem processfd_data_row (lower : Char → Char) (st : FDMap) (lineno : Int)
    (n co ch ph fx : Str) (more : List Str) (hline : lineno ≠ 1) :
    processfd lower st (n :: co :: ch :: ph :: fx :: more) lineno =
      some ((0, none), mapSet st (TrimSpace n)
        ⟨0, csvQuote (TrimSpace n), csvQuote (TrimSpace co), csvQuote (TrimSpace ch),
          csvQuote (TrimSpace ph), csvQuote (TrimSpace fx), [], [], [], [], []⟩) := by
  have hv := validate_data_row lower csvCols (n :: co :: ch :: ph :: fx :: more)
    "processfd".toList lineno hline (by simp [csvCols])
  simp only [processfd, hv, hline, if_false, Name, County, Chief, Phone, Fax,
    List.get?_cons_succ, List.get?_cons_zero, FDRecord.zero]

/-! ## Claims on seeding and enriching -/

/-- C1: seed-then-enrich round trip.  For every store, every CSV data row
(line number other than 1, at least 5 fields) and every well-formed page
(first start marker not after first stop marker; in the section the first
`<h3>` before the first `</h3>`, the first contact label ending before the
first `Ph:`, the text between them split on `<br />` into at least two
fragments, the trimmed second fragment matching `reCSZ`) whose trimmed
`<h3>` name equals the trimmed name field of the row, `processfd` followed
by `scrapeHTML` returns 0; the record under that name has FDID = id,
Address = csvQuote of the trimmed first fragment, City, State, PostalCode
= csvQuote of the trimmed groups, and the other fields as `processfd`
stored them; every other entry and the list of keys are unchanged. -/
theorem seed_then_enrich (lower : Char → Char) (st : FDMap) (lineno : Int)
    (n co ch ph fx : Str) (more : List Str) (page : Str) (id : Int)
    (i1 i2 j1 j2 k1 k2 : Nat) (a0 a1 : Str) (rest : List Str)
    (hline : lineno ≠ 1)
    (hi1 : Index page markStart = some i1) (hi2 : Index page markStop = some i2)
    (hle : i1 ≤ i2)
    (hj1 : Index ((page.take i2).drop i1) nameOpen = some j1)
    (hj2 : Index ((page.take i2).drop i1) nameClose = some j2) (hlt : j1 < j2)
    (hk1 : Index ((page.take i2).drop i1) target = some k1)
    (hk2 : Index ((page.take i2).drop i1) phMark = some k2)
    (hk : k1 + target.length ≤ k2)
    (hsplit : Split ((((page.take i2).drop i1).take k2).drop (k1 + target.length)) brSep
      = a0 :: a1 :: rest)
    (hre : (reMatch reCSZ (TrimSpace a1)).isSome = true)
    (hname : TrimSpace ((((page.take i2).drop i1).take j2).drop (j1 + 4)) = TrimSpace n) :
    ∃ (st1 st2 : FDMap) (f : FDRecord) (city state zip : Str),
      processfd lower st (n :: co :: ch :: ph :: fx :: more) lineno = some ((0, none), st1) ∧
      scrapeHTML st1 page id = some (0, st2) ∧
      reMatch reCSZ (TrimSpace a1) = some [city, state, zip] ∧
      mapGet st1 (TrimSpace n) = some f ∧
      f = ⟨0, csvQuote (TrimSpace n), csvQuote (TrimSpace co), csvQuote (TrimSpace ch),
        csvQuote (TrimSpace ph), csvQuote (TrimSpace fx), [], [], [], [], []⟩ ∧
      mapGet st2 (TrimSpace n) = some
        { f with
          FDID := id
          Address := csvQuote (TrimSpace a0)
          City := csvQuote (TrimSpace city)
          State := csvQuote (TrimSpace state)
          PostalCode := csvQuote (TrimSpace zip) } ∧
      (∀ k, k ≠ TrimSpace n → mapGet st2 k = mapGet st1 k) ∧
      mapKeys st2 = mapKeys st1 := by
  obtain ⟨gs, hgs⟩ := Option.isSome_iff_exists.1 hre
  obtain ⟨city, -, state, -, zip, -, -, -, -, -, -, -, -, -, -, hr⟩ := reCSZ_some hgs
  subst hr
  have hp := processfd_data_row lower st lineno n co ch ph fx more hline
  have hget := mapGet_mapSet_same st (TrimSpace n)
    ⟨0, csvQuote (TrimSpace n), csvQuote (TrimSpace co), csvQuote (TrimSpace ch),
      csvQuote (TrimSpace ph), csvQuote (TrimSpace fx), [], [], [], [], []⟩
  have hsc := scrapeHTML_wellformed
    (mapSet st (TrimSpace n)
      ⟨0, csvQuote (TrimSpace n), csvQuote (TrimSpace co), csvQuote (TrimSpace ch),
        csvQuote (TrimSpace ph), csvQuote (TrimSpace fx), [], [], [], [], []⟩)
    page id i1 i2 j1 j2 k1 k2 a0 a1 rest city state zip
    hi1 hi2 hle hj1 hj2 hlt hk1 hk2 hk hsplit hgs
  rw [hname, hget] at hsc
  exact ⟨_, _, _, city, state, zip, hp, hsc, hgs, hget, rfl, mapGet_mapSet_same _ _ _,
    fun k hk => mapGet_mapSet_other _ _ _ _ hk, mapKeys_mapSet_of_mem _ _ _ _ hget⟩

set_option maxRecDepth 100000 in
/-- Witness of C1: the sample row on line 2 and the sample page for id 1,
from a store that holds one other record. -/
theorem seed_then_enrich_witness :
    ∃ (st1 st2 : FDMap) (f : FDRecord) (city state zip : Str),
      processfd asciiLower [("Beta FD".toList, otherRecord)]
        ("Alpha FD".toList :: "County A".toList :: "Chief X".toList :: "555-0001".toList ::
          "555-0002".toList :: []) 2 = some ((0, none), st1) ∧
      scrapeHTML st1 samplePage 1 = some (0, st2) ∧
      reMatch reCSZ (TrimSpace "Example City, OK 74000".toList) = some [city, state, zip] ∧
      mapGet st1 (TrimSpace "Alpha FD".toList) = some f ∧
      f = ⟨0, csvQuote (TrimSpace "Alpha FD".toList), csvQuote (TrimSpace "County A".toList),
        csvQuote (TrimSpace "Chief X".toList), csvQuote (TrimSpace "555-0001".toList),
        csvQuote (TrimSpace "555-0002".toList), [], [], [], [], []⟩ ∧
      mapGet st2 (TrimSpace "Alpha FD".toList) = some
        { f with
          FDID := 1
          Address := csvQuote (TrimSpace "123 Main St".toList)
          City := csvQuote (TrimSpace city)
          State := csvQuote (TrimSpace state)
          PostalCode := csvQuote (TrimSpace zip) } ∧
      (∀ k, k ≠ TrimSpace "Alpha FD".toList → mapGet st2 k = mapGet st1 k) ∧
      mapKeys st2 = mapKeys st1 :=
  seed_then_enrich asciiLower [("Beta FD".toList, otherRecord)] 2
    "Alpha FD".toList "County A".toList "Chief X".toList "555-0001".toList "555-0002".toList []
    samplePage 1 5 123 15 27 32 100 "123 Main St".toList "Example City, OK 74000".toList []
    (by decide) (by decide) (by decide) (by decide) (by decide) (by decide) (by decide)
    (by decide) (by decide) (by decide) (by decide) (by decide) (by decide)

/-- C2: scraping never inserts.  For every store, every id and every
well-formed page (all markers present in order, address block with at
least two `<br />` fragments, second fragment matching `reCSZ`) whose
trimmed `<h3>` name is not a key of the store, `scrapeHTML` returns 5
(entity not found) and the store afterwards is the store before: same
keys, same number of entries, same records. -/
theorem scrape_never_inserts (st : FDMap) (page : Str) (id : Int)
    (i1 i2 j1 j2 k1 k2 : Nat) (a0 a1 : Str) (rest : List Str)
    (hi1 : Index page markStart = some i1) (hi2 : Index page markStop = some i2)
    (hle : i1 ≤ i2)
    (hj1 : Index ((page.take i2).drop i1) nameOpen = some j1)
    (hj2 : Index ((page.take i2).drop i1) nameClose = some j2) (hlt : j1 < j2)
    (hk1 : Index ((page.take i2).drop i1) target = some k1)
    (hk2 : Index ((page.take i2).drop i1) phMark = some k2)
    (hk : k1 + target.length ≤ k2)
    (hsplit : Split ((((page.take i2).drop i1).take k2).drop (k1 + target.length)) brSep
      = a0 :: a1 :: rest)
    (hre : (reMatch reCSZ (TrimSpace a1)).isSome = true)
    (hname : TrimSpace ((((page.take i2).drop i1).take j2).drop (j1 + 4)) ∉ mapKeys st) :
    ∃ st2, scrapeHTML st page id = some (5, st2) ∧ st2 = st ∧
      mapKeys st2 = mapKeys st ∧ st2.length = st.length ∧
      ∀ k, mapGet st2 k = mapGet st k := by
  obtain ⟨gs, hgs⟩ := Option.isSome_iff_exists.1 hre
  obtain ⟨city, -, state, -, zip, -, -, -, -, -, -, -, -, -, -, hr⟩ := reCSZ_some hgs
  subst hr
  have hsc := scrapeHTML_wellformed st page id i1 i2 j1 j2 k1 k2 a0 a1 rest city state zip
    hi1 hi2 hle hj1 hj2 hlt hk1 hk2 hk hsplit hgs
  rw [(mapGet_none_iff _ _).2 hname] at hsc
  exact ⟨st, hsc, rfl, rfl, rfl, fun _ => rfl⟩

set_option maxRecDepth 100000 in
/-- Witness of C2: the sample page against a store that holds only another
name. -/
theorem scrape_never_inserts_witness :
    ∃ st2, scrapeHTML [("Beta FD".toList, otherRecord)] samplePage 7 = some (5, st2) ∧
      st2 = [("Beta FD".toList, otherRecord)] ∧
      mapKeys st2 = mapKeys [("Beta FD".toList, otherRecord)] ∧
      st2.length = [("Beta FD".toList, otherRecord)].length ∧
      ∀ k, mapGet st2 k = mapGet [("Beta FD".toList, otherRecord)] k :=
  scrape_never_inserts [("Beta FD".toList, otherRecord)] samplePage 7
    5 123 15 27 32 100 "123 Main St".toList "Example City, OK 74000".toList []
    (by decide) (by decide) (by decide) (by decide) (by decide) (by decide) (by decide)
    (by decide) (by decide) (by decide) (by decide) (by decide)

/-! ## Claims on `scrapeHTML`: the failure statuses -/

/-- C3: for every page body that contains `id="fdcontact"` but does not
contain `id="fdresources"`, every id and every store, `scrapeHTML` returns
2 (section end not found) and the store afterwards is the store before, so
every record keeps its FDID and its address fields. -/
theorem scrapeHTML_stop_missing (st : FDMap) (page : Str) (id : Int)
    (hstart : Occurs markStart page) (hstop : ¬ Occurs markStop page) :
    scrapeHTML st page id = some (2, st) := by
  have h1 := (index_isSome_iff page markStart).2 hstart
  have h2 := (index_none_iff page markStop).2 hstop
  obtain ⟨i1, hi1⟩ := Option.isSome_iff_exists.1 h1
  simp only [scrapeHTML, hi1, h2]

/-- C4: `scrapeHTML` reports the first failing step in a fixed order and
leaves the store unchanged in each case: (a) if `id="fdcontact"` is absent
the status is 1 whatever else the page contains; (b) if both section
markers are present, the first start marker not after the first stop
marker, and the section lacks `<h3>` or lacks `</h3>`, the status is 3;
(c) if moreover the section has its first `<h3>` before its first `</h3>`
but lacks `<h4>Contact Information:</h4>` or lacks `Ph:`, the status is 4. -/
theorem scrapeHTML_first_failure (st : FDMap) (page : Str) (id : Int) :
    (¬ Occurs markStart page → scrapeHTML st page id = some (1, st)) ∧
    (∀ i1 i2, Index page markStart = some i1 → Index page markStop = some i2 → i1 ≤ i2 →
      (¬ Occurs nameOpen ((page.take i2).drop i1) ∨
        ¬ Occurs nameClose ((page.take i2).drop i1)) →
      scrapeHTML st page id = some (3, st)) ∧
    (∀ i1 i2 j1 j2, Index page markStart = some i1 → Index page markStop = some i2 → i1 ≤ i2 →
      Index ((page.take i2).drop i1) nameOpen = some j1 →
      Index ((page.take i2).drop i1) nameClose = some j2 → j1 < j2 →
      (¬ Occurs target ((page.take i2).drop i1) ∨
        ¬ Occurs phMark ((page.take i2).drop i1)) →
      scrapeHTML st page id = some (4, st)) := by
  refine ⟨?_, ?_, ?_⟩
  · intro h
    have h1 := (index_none_iff page markStart).2 h
    simp only [scrapeHTML, h1]
  · intro i1 i2 hi1 hi2 hle hor
    have hs := section_slice hi2 hle
    simp only [scrapeHTML, hi1, hi2, hs]
    rcases hor with h | h
    · have h1 := (index_none_iff _ nameOpen).2 h
      simp only [h1]
    · have h1 := (index_none_iff _ nameClose).2 h
      simp only [h1]
      cases Index ((page.take i2).drop i1) nameOpen <;> rfl
  · intro i1 i2 j1 j2 hi1 hi2 hle hj1 hj2 hlt hor
    have hs := section_slice hi2 hle
    have hj := nameOpen_ends_before (index_some_hasPrefix hj1) (index_some_hasPrefix hj2) hlt
    have hnm : slice ((page.take i2).drop i1) (j1 + 4) j2 = some _ :=
      slice_eq_some hj (by have := index_some_le hj2; omega)
    simp only [scrapeHTML, hi1, hi2, hs, hj1, hj2, hnm]
    rcases hor with h | h
    · have h1 := (index_none_iff _ target).2 h
      simp only [h1]
    · have h1 := (index_none_iff _ phMark).2 h
      simp only [h1]
      cases Index ((page.take i2).drop i1) target <;> rfl

/-- Witness of C3: a page with the start marker and no stop marker. -/
theorem scrapeHTML_stop_missing_witness :
    scrapeHTML [("Beta FD".toList, otherRecord)] "id=\"fdcontact\"<h3>Beta FD</h3>".toList 3
      = some (2, [("Beta FD".toList, otherRecord)]) :=
  scrapeHTML_stop_missing [("Beta FD".toList, otherRecord)]
    "id=\"fdcontact\"<h3>Beta FD</h3>".toList 3
    ((index_isSome_iff _ _).1 (by decide)) ((index_none_iff _ _).1 (by decide))

set_option maxRecDepth 100000 in
/-- Witness of C4: a page without the start marker, a page without `</h3>`
and a page without the contact label. -/
theorem scrapeHTML_first_failure_witness :
    scrapeHTML [] "<h3>A</h3>id=\"fdresources\"".toList 1 = some (1, []) ∧
    scrapeHTML [] "id=\"fdcontact\"<h3>Alphaid=\"fdresources\"".toList 1 = some (3, []) ∧
    scrapeHTML [] "id=\"fdcontact\"<h3>A</h3>Ph:id=\"fdresources\"".toList 1 = some (4, []) :=
  ⟨(scrapeHTML_first_failure [] "<h3>A</h3>id=\"fdresources\"".toList 1).1
      ((index_none_iff _ _).1 (by decide)),
   (scrapeHTML_first_failure [] "id=\"fdcontact\"<h3>Alphaid=\"fdresources\"".toList 1).2.1
      0 23 (by decide) (by decide) (by decide)
      (Or.inr ((index_none_iff _ _).1 (by decide))),
   (scrapeHTML_first_failure [] "id=\"fdcontact\"<h3>A</h3>Ph:id=\"fdresources\"".toList 1).2.2
      0 27 14 19 (by decide) (by decide) (by decide) (by decide) (by decide) (by decide)
      (Or.inl ((index_none_iff _ _).1 (by decide)))⟩

/-! ## Run-time faults of `scrapeHTML` -/

/-- The slice `src[i1:i2]` faults when the first stop marker lies before the
first start marker. -/
theorem scrapeHTML_fault_stop_before_start (st : FDMap) (page : Str) (id : Int) (i1 i2 : Nat)
    (hi1 : Index page markStart = some i1) (hi2 : Index page markStop = some i2)
    (hlt : i2 < i1) : scrapeHTML st page id = none := by
  have hs : slice page i1 i2 = none := by
    have : ¬ (i1 ≤ i2 ∧ i2 ≤ page.length) := by omega
    simp only [slice, this, if_false]
  simp only [scrapeHTML, hi1, hi2, hs]

/-- The index `addr[1]` faults when the address block has a single fragment,
and `m[0]` faults when the second fragment has no match of `reCSZ`. -/
theorem scrapeHTML_fault_address (st : FDMap) (page : Str) (id : Int)
    (i1 i2 j1 j2 k1 k2 : Nat)
    (hi1 : Index page markStart = some i1) (hi2 : Index page markStop = some i2)
    (hle : i1 ≤ i2)
    (hj1 : Index ((page.take i2).drop i1) nameOpen = some j1)
    (hj2 : Index ((page.take i2).drop i1) nameClose = some j2) (hlt : j1 < j2)
    (hk1 : Index ((page.take i2).drop i1) target = some k1)
    (hk2 : Index ((page.take i2).drop i1) phMark = some k2)
    (hk : k1 + target.length ≤ k2)
    (hbad : (∃ a0, Split ((((page.take i2).drop i1).take k2).drop (k1 + target.length)) brSep
        = [a0]) ∨
      (∃ a0 a1 rest,
        Split ((((page.take i2).drop i1).take k2).drop (k1 + target.length)) brSep
          = a0 :: a1 :: rest ∧ reMatch reCSZ (TrimSpace a1) = none)) :
    scrapeHTML st page id = none := by
  have hs := section_slice hi2 hle
  have hj := nameOpen_ends_before (index_some_hasPrefix hj1) (index_some_hasPrefix hj2) hlt
  have hnm : slice ((page.take i2).drop i1) (j1 + 4) j2 = some _ :=
    slice_eq_some hj (by have := index_some_le hj2; omega)
  have hraw : slice ((page.take i2).drop i1) (k1 + target.length) k2 = some _ :=
    slice_eq_some hk (by have := index_some_le hk2; omega)
  rcases hbad with ⟨a0, h⟩ | ⟨a0, a1, rest, h, hre⟩
  · simp only [scrapeHTML, hi1, hi2, hs, hj1, hj2, hnm, hk1, hk2, hraw, h, List.map_cons,
      List.map_nil, List.get?_cons_succ, List.get?_nil]
  · simp only [scrapeHTML, hi1, hi2, hs, hj1, hj2, hnm, hk1, hk2, hraw, h, List.map_cons,
      List.get?_cons_succ, List.get?_cons_zero, FindAllStringSubmatch, hre, List.get?_nil]

set_option maxRecDepth 100000 in
/-- C5 (the code faults): `scrapeHTML` does not always return a status.  For
every store and id it faults (index or slice out of range) on a page whose
address block has a single fragment, on a page whose second fragment does
not match `reCSZ`, on a page whose `</h3>` precedes its `<h3>` and on a
page whose `Ph:` precedes the contact label. -/
theorem scrapeHTML_not_total (st : FDMap) (id : Int) :
    scrapeHTML st pageOneFragment id = none ∧
    scrapeHTML st pageNoCSZ id = none ∧
    scrapeHTML st pageNameReversed id = none ∧
    scrapeHTML st pageAddressReversed id = none := by
  refine ⟨?_, ?_, ?_, ?_⟩
  · exact scrapeHTML_fault_address st pageOneFragment id 0 67 14 19 24 64
      (by decide) (by decide) (by decide) (by decide) (by decide) (by decide) (by decide)
      (by decide) (by decide) (Or.inl ⟨"123 Main St".toList, by decide⟩)
  · exact scrapeHTML_fault_address st pageNoCSZ id 0 80 14 19 24 77
      (by decide) (by decide) (by decide) (by decide) (by decide) (by decide) (by decide)
      (by decide) (by decide)
      (Or.inr ⟨"123 Main St".toList, "Nowhere".toList, [], by decide, by decide⟩)
  · have hi1 : Index pageNameReversed markStart = some 0 := by decide
    have hi2 : Index pageNameReversed markStop = some 70 := by decide
    have hs : slice pageNameReversed 0 70 = some ((pageNameReversed.take 70).drop 0) := by
      decide
    have hj1 : Index ((pageNameReversed.take 70).drop 0) nameOpen = some 20 := by decide
    have hj2 : Index ((pageNameReversed.take 70).drop 0) nameClose = some 14 := by decide
    have hnm : slice ((pageNameReversed.take 70).drop 0) (20 + 4) 14 = none := by decide
    simp only [scrapeHTML, hi1, hi2, hs, hj1, hj2, hnm]
  · have hi1 : Index pageAddressReversed markStart = some 0 := by decide
    have hi2 : Index pageAddressReversed markStop = some 70 := by decide
    have hs : slice pageAddressReversed 0 70 = some ((pageAddressReversed.take 70).drop 0) := by
      decide
    have hj1 : Index ((pageAddressReversed.take 70).drop 0) nameOpen = some 14 := by decide
    have hj2 : Index ((pageAddressReversed.take 70).drop 0) nameClose = some 19 := by decide
    have hnm : slice ((pageAddressReversed.take 70).drop 0) (14 + 4) 19
        = some ((((pageAddressReversed.take 70).drop 0).take 19).drop (14 + 4)) := by decide
    have hk1 : Index ((pageAddressReversed.take 70).drop 0) target = some 27 := by decide
    have hk2 : Index ((pageAddressReversed.take 70).drop 0) phMark = some 24 := by decide
    have hraw : slice ((pageAddressReversed.take 70).drop 0) (27 + target.length) 24 = none := by
      decide
    simp only [scrapeHTML, hi1, hi2, hs, hj1, hj2, hnm, hk1, hk2, hraw]

/-- C6 (the code faults): on the page `id="fdresources" id="fdcontact"`, whose
only stop marker lies before the start marker, `scrapeHTML` does not
return 2: for every store and id the slice `src[i1:i2]` is out of range
and the call faults. -/
theorem scrapeHTML_stop_before_start (st : FDMap) (id : Int) :
    scrapeHTML st pageStopFirst id = none ∧ scrapeHTML st pageStopFirst id ≠ some (2, st) := by
  have h := scrapeHTML_fault_stop_before_start st pageStopFirst id 17 0
    (by decide) (by decide) (by decide)
  refine ⟨h, ?_⟩
  rw [h]
  exact fun hc => by cases hc

/-! ## Claims on `ValidateCSVColumnsErr` -/

theorem getD_of_get? {α : Type} (l : List α) (i : Nat) (d x : α) (h : l.get? i = some x) :
    l.getD i d = x := by
  simp only [List.get?_eq_getElem?] at h
  simp [List.getD_eq_getElem?_getD, h]

/-- The loop over a short row finds nothing when no field from `i` on
differs from its title. -/
theorem shortLoop_none (lower : Char → Char) (cols : List CSVColumn) (sa : List Str)
    (fn : Str) (lineno : Int) (fuel i : Nat)
    (h : ∀ j, i ≤ j → j < sa.length →
      headingDiffers lower (cols.getD j ⟨[], 0⟩) (sa.getD j []) = false) :
    shortLoop lower cols sa fn lineno fuel i = none := by
  induction fuel generalizing i with
  | zero => rfl
  | succ fuel ih =>
    simp only [shortLoop]
    have hrec := ih (i + 1) (fun j hj hjl => h j (by omega) hjl)
    by_cases hi : i < sa.length
    · simp only [hi, if_true, h i (le_refl _) hi, hrec]
      rfl
    · simp only [hi, if_false, hrec]

/-- The loop over a short row stops at the first field that differs from
its title. -/
theorem shortLoop_first (lower : Char → Char) (cols : List CSVColumn) (sa : List Str)
    (fn : Str) (lineno : Int) (fuel i m : Nat) (him : i ≤ m) (hm : m < sa.length)
    (hfuel : m < i + fuel)
    (hd : headingDiffers lower (cols.getD m ⟨[], 0⟩) (sa.getD m []) = true)
    (hbefore : ∀ j, i ≤ j → j < m →
      headingDiffers lower (cols.getD j ⟨[], 0⟩) (sa.getD j []) = false) :
    shortLoop lower cols sa fn lineno fuel i
      = some (CsvErr.heading fn lineno m (cols.getD m ⟨[], 0⟩).Name (sa.getD m [])) := by
  induction fuel generalizing i with
  | zero => omega
  | succ fuel ih =>
    simp only [shortLoop]
    have hi : i < sa.length := by omega
    rcases Nat.eq_or_lt_of_le him with heq | hlt
    · subst heq
      simp only [hi, if_true, hd]
    · have h0 := hbefore i (le_refl _) hlt
      simp only [hi, if_true, h0]
      exact ih (i + 1) (by omega) (by omega) (fun j hj hjm => hbefore j (by omega) hjm)

/-- C9: short rows never pass.  For every schema, every line number and
every row with fewer fields than the schema, `ValidateCSVColumnsErr`
returns `true` and an error; the error is the column-heading mismatch for
the smallest index `i < len(row)` whose field differs from the title
`schema[i].Name` (with the line number, `i`, the expected name and the
field found) if there is such an index, and otherwise the error of too few
values with the line number, `len(row)` and `len(schema)`. -/
theorem validate_short_row (lower : Char → Char) (cols : List CSVColumn) (sa : List Str)
    (fn : Str) (lineno : Int) (hshort : sa.length < cols.length) :
    (∃ e, ValidateCSVColumnsErr lower cols sa fn lineno = (true, some e)) ∧
    (∀ i col field, cols.get? i = some col → sa.get? i = some field →
      headingDiffers lower col field = true →
      (∀ j colj fieldj, j < i → cols.get? j = some colj → sa.get? j = some fieldj →
        headingDiffers lower colj fieldj = false) →
      ValidateCSVColumnsErr lower cols sa fn lineno
        = (true, some (CsvErr.heading fn lineno i col.Name field))) ∧
    ((∀ i col field, cols.get? i = some col → sa.get? i = some field →
        headingDiffers lower col field = false) →
      ValidateCSVColumnsErr lower cols sa fn lineno
        = (true, some (CsvErr.tooFew fn lineno sa.length cols.length))) := by
  have hget : ∀ j, j < sa.length →
      cols.get? j = some (cols.getD j ⟨[], 0⟩) ∧ sa.get? j = some (sa.getD j []) := by
    intro j hj
    have hj2 : j < cols.length := by omega
    simp [List.getD_eq_getElem?_getD, List.getElem?_eq_getElem, hj, hj2]
  refine ⟨?_, ?_, ?_⟩
  · simp only [ValidateCSVColumnsErr, hshort, if_true]
    cases shortLoop lower cols sa fn lineno cols.length 0 with
    | none => exact ⟨_, rfl⟩
    | some e => exact ⟨_, rfl⟩
  · intro i col field hc hf hd hbefore
    have hi : i < sa.length := by
      simp only [List.get?_eq_getElem?] at hf
      exact (List.getElem?_eq_some_iff.1 hf).1
    have e1 := getD_of_get? cols i ⟨[], 0⟩ col hc
    have e2 := getD_of_get? sa i [] field hf
    have hloop := shortLoop_first lower cols sa fn lineno cols.length 0 i (Nat.zero_le _) hi
      (by omega) (by rw [e1, e2]; exact hd)
      (fun j _ hj => hbefore j _ _ hj (hget j (by omega)).1 (hget j (by omega)).2)
    rw [e1, e2] at hloop
    simp only [ValidateCSVColumnsErr, hshort, if_true, hloop]
  · intro hall
    have hloop := shortLoop_none lower cols sa fn lineno cols.length 0
      (fun j _ hj => hall j _ _ (hget j hj).1 (hget j hj).2)
    simp only [ValidateCSVColumnsErr, hshort, if_true, hloop]

/-- Witness of C9: against the schema of `fd.csv`, the row `name, Chief` on
line 3 fails at column 1, and the row `name, county` fails for having two
values where five are needed. -/
theorem validate_short_row_witness :
    ValidateCSVColumnsErr asciiLower csvCols ["name".toList, "Chief".toList] "processfd".toList 3
      = (true, some (CsvErr.heading "processfd".toList 3 1 "County".toList "Chief".toList)) ∧
    ValidateCSVColumnsErr asciiLower csvCols ["name".toList, "county".toList] "processfd".toList 3
      = (true, some (CsvErr.tooFew "processfd".toList 3 2 5)) :=
  ⟨(validate_short_row asciiLower csvCols ["name".toList, "Chief".toList] "processfd".toList 3
      (by decide)).2.1 1 ⟨"County".toList, County⟩ "Chief".toList (by decide) (by decide)
      (by decide)
      (fun j colj fieldj hj hc hf => by
        have h0 : j = 0 := by omega
        subst h0
        cases hc
        cases hf
        decide),
   (validate_short_row asciiLower csvCols ["name".toList, "county".toList] "processfd".toList 3
      (by decide)).2.2
      (fun i col field hc hf => by
        rcases i with _ | _ | i
        · cases hc; cases hf; decide
        · cases hc; cases hf; decide
        · cases hf)⟩

theorem Stripchars_single (s : Str) (c : Char) :
    Stripchars s [c] = s.filter (fun r => r != c) := by
  unfold Stripchars
  congr 1
  funext r
  by_cases h : c = r
  · subst h
    simp [IndexRune, Index, HasPrefix]
  · have h2 : ¬ r = c := fun e => h e.symm
    simp [IndexRune, Index, HasPrefix, h, h2]

/-- `TrimSpace` takes a run of white space off each end. -/
theorem TrimSpace_decomp (s : Str) :
    ∃ pre post : Str, s = pre ++ TrimSpace s ++ post ∧
      (∀ c ∈ pre, isSpace c = true) ∧ (∀ c ∈ post, isSpace c = true) := by
  refine ⟨s.takeWhile isSpace, ((s.dropWhile isSpace).reverse.takeWhile isSpace).reverse,
    ?_, ?_, ?_⟩
  · have h1 := List.takeWhile_append_dropWhile isSpace s
    have h2 := List.takeWhile_append_dropWhile isSpace (s.dropWhile isSpace).reverse
    have h3 := congrArg List.reverse h2
    simp only [List.reverse_append, List.reverse_reverse] at h3
    unfold TrimSpace
    rw [List.append_assoc, h3, h1]
  · intro c hc
    exact List.mem_takeWhile_imp hc
  · intro c hc
    exact List.mem_takeWhile_imp (List.mem_reverse.1 hc)

/-- A field that is the title up to letter case and spaces passes the
comparison of `ValidateCSVColumnsErr`, when the lower-cased title has no
white space and lower-casing leaves white space alone. -/
theorem headingDiffers_false_of_same (lower : Char → Char)
    (hsp : ∀ c, isSpace c = true → lower c = c) (col : CSVColumn) (field : Str)
    (hE : ∀ c ∈ ToLower lower col.Name, isSpace c = false)
    (hsame : sameIgnoringCaseAndSpaces lower field col.Name = true) :
    headingDiffers lower col field = false := by
  have hEf : (ToLower lower col.Name).filter (fun c => c != ' ') = ToLower lower col.Name := by
    rw [List.filter_eq_self]
    intro c hc
    have := hE c hc
    cases hcs : (c != ' ') with
    | true => rfl
    | false =>
      have hceq : c = ' ' := by simpa using hcs
      rw [hceq] at this
      exact absurd this (by decide)
  simp only [sameIgnoringCaseAndSpaces, beq_iff_eq, hEf] at hsame
  obtain ⟨pre, post, hdec, hpre, hpost⟩ := TrimSpace_decomp field
  have hmap : ∀ l : Str, (∀ c ∈ l, isSpace c = true) → l.map lower = l := by
    intro l hl
    induction l with
    | nil => rfl
    | cons x xs ih =>
      simp only [List.map_cons]
      rw [hsp x (hl x (List.mem_cons_self _ _)),
        ih (fun c hc => hl c (List.mem_cons_of_mem _ hc))]
  rw [hdec] at hsame
  simp only [ToLower, List.map_append, List.filter_append, hmap pre hpre, hmap post hpost]
    at hsame
  have hnil : ∀ l : Str, (∀ c ∈ l, isSpace c = true) →
      (∀ c ∈ l.filter (fun c => c != ' '), c ∈ ToLower lower col.Name) →
      l.filter (fun c => c != ' ') = [] := by
    intro l hl hin
    rw [List.filter_eq_nil_iff]
    intro c hc hne
    have hmem : c ∈ l.filter (fun c => c != ' ') := List.mem_filter.2 ⟨hc, hne⟩
    have h1 := hE c (hin c hmem)
    rw [hl c hc] at h1
    cases h1
  have hpre0 := hnil pre hpre (by
    intro c hc
    simp only [ToLower]
    rw [← hsame]
    simp only [List.mem_append]
    exact Or.inl (Or.inl hc))
  have hpost0 := hnil post hpost (by
    intro c hc
    simp only [ToLower]
    rw [← hsame]
    simp only [List.mem_append]
    exact Or.inr hc)
  rw [hpre0, hpost0, List.nil_append, List.append_nil] at hsame
  have hsp1 : " ".toList = [' '] := rfl
  simp only [headingDiffers, hsp1, Stripchars_single, ToLower]
  rw [hsame]
  simp

theorem headerLoop_none (lower : Char → Char) (cols : List CSVColumn) (sa : List Str)
    (fn : Str) (lineno : Int) (fuel i : Nat)
    (h : ∀ j, i ≤ j → j < i + fuel →
      headingDiffers lower (cols.getD j ⟨[], 0⟩) (sa.getD j []) = false) :
    headerLoop lower cols sa fn lineno fuel i = none := by
  induction fuel generalizing i with
  | zero => rfl
  | succ fuel ih =>
    simp only [headerLoop]
    have hrec := ih (i + 1) (fun j hj hjl => h j (by omega) (by omega))
    simp only [h i (le_refl _) (by omega), hrec]
    rfl

theorem asciiLower_space (c : Char) (h : isSpace c = true) : asciiLower c = c := by
  simp only [isSpace, Bool.or_eq_true, Bool.and_eq_true, decide_eq_true_eq] at h
  have h1 : ¬ (c.toNat ≥ 65 ∧ c.toNat ≤ 90) := by omega
  simp only [asciiLower, Char.toLower, h1, if_false]

/-- C10: for every row on line 1 with at least 5 fields whose first five
fields are `Name`, `County`, `Chief`, `Phone`, `Fax` in order, up to letter
case and spaces, and for every store, `ValidateCSVColumnsErr` returns
`false` and no error, and `processfd` returns 0 and no error with the
store as it was.  The rune mapping `unicode.ToLower` is any mapping that
lower-cases ASCII and leaves white space alone. -/
theorem header_row_accepted (lower : Char → Char)
    (hsp : ∀ c, isSpace c = true → lower c = c)
    (hascii : ∀ c : Char, c.toNat < 128 → lower c = asciiLower c)
    (st : FDMap) (fn : Str) (n co ch ph fx : Str) (more : List Str)
    (hn : sameIgnoringCaseAndSpaces lower n "Name".toList = true)
    (hco : sameIgnoringCaseAndSpaces lower co "County".toList = true)
    (hch : sameIgnoringCaseAndSpaces lower ch "Chief".toList = true)
    (hph : sameIgnoringCaseAndSpaces lower ph "Phone".toList = true)
    (hfx : sameIgnoringCaseAndSpaces lower fx "Fax".toList = true) :
    ValidateCSVColumnsErr lower csvCols (n :: co :: ch :: ph :: fx :: more) fn 1
      = (false, none) ∧
    processfd lower st (n :: co :: ch :: ph :: fx :: more) 1 = some ((0, none), st) := by
  have hE : ∀ col ∈ csvCols, ∀ c ∈ ToLower lower col.Name, isSpace c = false := by
    intro col hcol c hc
    simp only [ToLower, List.mem_map] at hc
    obtain ⟨x, hx, rfl⟩ := hc
    simp only [csvCols, List.mem_cons, List.mem_singleton, List.not_mem_nil, or_false] at hcol
    rcases hcol with rfl | rfl | rfl | rfl | rfl <;>
      (simp only [String.toList, List.mem_cons, List.mem_singleton, List.not_mem_nil,
          or_false] at hx
       rcases hx with rfl | rfl | rfl | rfl | rfl | rfl <;>
         (rw [hascii _ (by decide)]; decide))
  have hlen : ¬ (n :: co :: ch :: ph :: fx :: more).length < csvCols.length := by
    simp [csvCols]
  have hv : ∀ f : Str, ValidateCSVColumnsErr lower csvCols (n :: co :: ch :: ph :: fx :: more)
      f 1 = (false, none) := by
    intro f
    have hloopf : headerLoop lower csvCols (n :: co :: ch :: ph :: fx :: more) f 1
        csvCols.length 0 = none := by
      apply headerLoop_none
      intro j _ hj
      have hj5 : j < 5 := by simpa [csvCols] using hj
      rcases j with _ | _ | _ | _ | _ | j
      · exact headingDiffers_false_of_same lower hsp _ _ (hE _ (by simp [csvCols])) hn
      · exact headingDiffers_false_of_same lower hsp _ _ (hE _ (by simp [csvCols])) hco
      · exact headingDiffers_false_of_same lower hsp _ _ (hE _ (by simp [csvCols])) hch
      · exact headingDiffers_false_of_same lower hsp _ _ (hE _ (by simp [csvCols])) hph
      · exact headingDiffers_false_of_same lower hsp _ _ (hE _ (by simp [csvCols])) hfx
      · omega
    simp only [ValidateCSVColumnsErr, hlen, if_false, if_true, hloopf]
  refine ⟨hv fn, ?_⟩
  simp only [processfd, hv, if_true]

/-- Witness of C10: the header `" NAME", "c ounty", "Chief", "PHONE ", "fax"`
with one more field, against a store that holds one record. -/
theorem header_row_accepted_witness :
    ValidateCSVColumnsErr asciiLower csvCols
      (" NAME".toList :: "c ounty".toList :: "Chief".toList :: "PHONE ".toList ::
        "fax".toList :: ["more".toList]) "processfd".toList 1 = (false, none) ∧
    processfd asciiLower [("Beta FD".toList, otherRecord)]
      (" NAME".toList :: "c ounty".toList :: "Chief".toList :: "PHONE ".toList ::
        "fax".toList :: ["more".toList]) 1
      = some ((0, none), [("Beta FD".toList, otherRecord)]) :=
  header_row_accepted asciiLower asciiLower_space (fun _ _ => rfl)
    [("Beta FD".toList, otherRecord)] "processfd".toList
    " NAME".toList "c ounty".toList "Chief".toList "PHONE ".toList "fax".toList
    ["more".toList] (by decide) (by decide) (by decide) (by decide) (by decide)

theorem headerLoop_first (lower : Char → Char) (cols : List CSVColumn) (sa : List Str)
    (fn : Str) (lineno : Int) (fuel i m : Nat) (him : i ≤ m) (hfuel : m < i + fuel)
    (hd : headingDiffers lower (cols.getD m ⟨[], 0⟩) (sa.getD m []) = true)
    (hbefore : ∀ j, i ≤ j → j < m →
      headingDiffers lower (cols.getD j ⟨[], 0⟩) (sa.getD j []) = false) :
    headerLoop lower cols sa fn lineno fuel i
      = some (CsvErr.heading fn lineno m (cols.getD m ⟨[], 0⟩).Name (sa.getD m [])) := by
  induction fuel generalizing i with
  | zero => omega
  | succ fuel ih =>
    simp only [headerLoop]
    rcases Nat.eq_or_lt_of_le him with heq | hlt
    · subst heq
      simp only [hd, if_true]
    · have h0 := hbefore i (le_refl _) hlt
      simp only [h0]
      exact ih (i + 1) (by omega) (by omega) (fun j hj hjm => hbefore j (by omega) hjm)

theorem headerLoop_none_imp (lower : Char → Char) (cols : List CSVColumn) (sa : List Str)
    (fn : Str) (lineno : Int) (fuel i : Nat)
    (h : headerLoop lower cols sa fn lineno fuel i = none) :
    ∀ j, i ≤ j → j < i + fuel →
      headingDiffers lower (cols.getD j ⟨[], 0⟩) (sa.getD j []) = false := by
  induction fuel generalizing i with
  | zero => intro j h1 h2; omega
  | succ fuel ih =>
    simp only [headerLoop] at h
    cases hd : headingDiffers lower (cols.getD i ⟨[], 0⟩) (sa.getD i []) with
    | true => rw [if_pos hd] at h; cases h
    | false =>
      rw [if_neg (by rw [hd]; exact Bool.false_ne_true)] at h
      intro j h1 h2
      rcases Nat.eq_or_lt_of_le h1 with heq | hlt
      · rw [← heq]; exact hd
      · exact ih (i + 1) h j (by omega) (by omega)

theorem headerLoop_congr (lower : Char → Char) (cols : List CSVColumn) (sa sb : List Str)
    (fn : Str) (lineno : Int) (fuel i : Nat)
    (h : ∀ j, i ≤ j → j < i + fuel → sa.getD j [] = sb.getD j []) :
    headerLoop lower cols sa fn lineno fuel i = headerLoop lower cols sb fn lineno fuel i := by
  induction fuel generalizing i with
  | zero => rfl
  | succ fuel ih =>
    simp only [headerLoop]
    rw [h i (le_refl _) (by omega), ih (i + 1) (fun j h1 h2 => h j (by omega) (by omega))]

theorem getD_get?_of_lt (l : List Str) (j : Nat) (hj : j < l.length) :
    l.get? j = some (l.getD j []) := by
  simp [List.getD_eq_getElem?_getD, List.getElem?_eq_getElem, hj]

theorem getD_get?_cols (l : List CSVColumn) (j : Nat) (hj : j < l.length) :
    l.get? j = some (l.getD j ⟨[], 0⟩) := by
  simp [List.getD_eq_getElem?_getD, List.getElem?_eq_getElem, hj]

theorem lt_length_of_get? {α : Type} (l : List α) (i : Nat) (x : α) (h : l.get? i = some x) :
    i < l.length := by
  simp only [List.get?_eq_getElem?] at h
  exact (List.getElem?_eq_some_iff.1 h).1

/-- C11: for every schema and every row on line 1 with at least
`len(schema)` fields, `ValidateCSVColumnsErr` fails (returns `true`) if and
only if some field at an index below `len(schema)` differs from its schema
name, and returns `false` and no error otherwise; when it fails, the error
names the smallest such index with the expected name and the field found;
the fields at index `len(schema)` and beyond have no influence on the
result. -/
theorem validate_header_row (lower : Char → Char) (cols : List CSVColumn) (sa : List Str)
    (fn : Str) (hlen : cols.length ≤ sa.length) :
    ((ValidateCSVColumnsErr lower cols sa fn 1).1 = true ↔
      ∃ i col field, cols.get? i = some col ∧ sa.get? i = some field ∧
        headingDiffers lower col field = true) ∧
    ((ValidateCSVColumnsErr lower cols sa fn 1).1 = false →
      ValidateCSVColumnsErr lower cols sa fn 1 = (false, none)) ∧
    (∀ i col field, cols.get? i = some col → sa.get? i = some field →
      headingDiffers lower col field = true →
      (∀ j colj fieldj, j < i → cols.get? j = some colj → sa.get? j = some fieldj →
        headingDiffers lower colj fieldj = false) →
      ValidateCSVColumnsErr lower cols sa fn 1
        = (true, some (CsvErr.heading fn 1 i col.Name field))) ∧
    (∀ extra : List Str,
      ValidateCSVColumnsErr lower cols (sa.take cols.length ++ extra) fn 1
        = ValidateCSVColumnsErr lower cols sa fn 1) := by
  have hns : ¬ sa.length < cols.length := by omega
  have hval : ValidateCSVColumnsErr lower cols sa fn 1 =
      match headerLoop lower cols sa fn 1 cols.length 0 with
      | some e => (true, some e)
      | none => (false, none) := by
    simp only [ValidateCSVColumnsErr, hns, if_false, if_true]
  refine ⟨?_, ?_, ?_, ?_⟩
  · rw [hval]
    constructor
    · intro h
      cases hl : headerLoop lower cols sa fn 1 cols.length 0 with
      | none => rw [hl] at h; cases h
      | some e =>
        by_contra hne
        have hall : ∀ j, 0 ≤ j → j < cols.length →
            headingDiffers lower (cols.getD j ⟨[], 0⟩) (sa.getD j []) = false := by
          intro j _ hj
          cases hd : headingDiffers lower (cols.getD j ⟨[], 0⟩) (sa.getD j []) with
          | false => rfl
          | true =>
            exact absurd ⟨j, _, _, getD_get?_cols cols j hj,
              getD_get?_of_lt sa j (by omega), hd⟩ hne
        have := headerLoop_none lower cols sa fn 1 cols.length 0
          (fun j h1 h2 => hall j h1 (by omega))
        rw [this] at hl
        cases hl
    · rintro ⟨i, col, field, hc, hf, hd⟩
      cases hl : headerLoop lower cols sa fn 1 cols.length 0 with
      | some e => rfl
      | none =>
        exfalso
        have hi := lt_length_of_get? cols i col hc
        have := headerLoop_none_imp lower cols sa fn 1 cols.length 0 hl i (Nat.zero_le _)
          (by omega)
        rw [getD_of_get? cols i ⟨[], 0⟩ col hc, getD_of_get? sa i [] field hf, hd] at this
        cases this
  · rw [hval]
    cases headerLoop lower cols sa fn 1 cols.length 0 with
    | none => intro _; rfl
    | some e => intro h; cases h
  · intro i col field hc hf hd hbefore
    have hi := lt_length_of_get? cols i col hc
    have e1 := getD_of_get? cols i ⟨[], 0⟩ col hc
    have e2 := getD_of_get? sa i [] field hf
    have hloop := headerLoop_first lower cols sa fn 1 cols.length 0 i (Nat.zero_le _)
      (by omega) (by rw [e1, e2]; exact hd)
      (fun j _ hj => hbefore j _ _ hj (getD_get?_cols cols j (by omega))
        (getD_get?_of_lt sa j (by omega)))
    rw [e1, e2] at hloop
    rw [hval, hloop]
  · intro extra
    have hlen2 : ¬ (sa.take cols.length ++ extra).length < cols.length := by
      simp only [List.length_append, List.length_take]
      omega
    have hcongr := headerLoop_congr lower cols (sa.take cols.length ++ extra) sa fn 1
      cols.length 0 (by
        intro j _ hj
        have hj2 : j < (sa.take cols.length).length := by
          simp only [List.length_take]
          omega
        simp only [List.getD_eq_getElem?_getD]
        rw [List.getElem?_append_left hj2, List.getElem?_take_of_lt (by omega)])
    rw [hval]
    simp only [ValidateCSVColumnsErr, hlen2, if_false, if_true, hcongr]

/-- Witness of C11: the heading `Name, Country, Chief, Telephone, Fax, Extra`
fails at column 1, whatever follows the fifth field. -/
theorem validate_header_row_witness :
    ValidateCSVColumnsErr asciiLower csvCols
      ["Name".toList, "Country".toList, "Chief".toList, "Telephone".toList, "Fax".toList,
        "Extra".toList] "processfd".toList 1
      = (true, some (CsvErr.heading "processfd".toList 1 1 "County".toList "Country".toList)) :=
  (validate_header_row asciiLower csvCols
      ["Name".toList, "Country".toList, "Chief".toList, "Telephone".toList, "Fax".toList,
        "Extra".toList] "processfd".toList (by decide)).2.2.1 1 ⟨"County".toList, County⟩
      "Country".toList (by decide) (by decide) (by decide)
      (fun j colj fieldj hj hc hf => by
        have h0 : j = 0 := by omega
        subst h0
        cases hc
        cases hf
        decide)

theorem headingDiffers_eq (lower : Char → Char) (col : CSVColumn) (field : Str) :
    headingDiffers lower col field
      = ((ToLower lower (TrimSpace field)).filter (fun c => c != ' ') != ToLower lower col.Name) := by
  have hsp1 : " ".toList = [' '] := rfl
  simp only [headingDiffers, hsp1, Stripchars_single]

/-- Counterexample of C12: the expected name `Postal Code` is matched
neither by the field `postalcode` nor by the field `Postal Code`, although
each is equal to it once white space and letter case are ignored on both
sides; and the field `Na\tme` does not match the expected name `Name`. -/
theorem heading_match_counterexample :
    sameIgnoringCaseAndWhitespace asciiLower "Postal Code".toList "postalcode".toList = true ∧
    ValidateCSVColumnsErr asciiLower [⟨"Postal Code".toList, 0⟩] ["postalcode".toList]
      "processfd".toList 1
      = (true, some (CsvErr.heading "processfd".toList 1 0 "Postal Code".toList
          "postalcode".toList)) ∧
    sameIgnoringCaseAndWhitespace asciiLower "Postal Code".toList "Postal Code".toList = true ∧
    ValidateCSVColumnsErr asciiLower [⟨"Postal Code".toList, 0⟩] ["Postal Code".toList]
      "processfd".toList 1
      = (true, some (CsvErr.heading "processfd".toList 1 0 "Postal Code".toList
          "Postal Code".toList)) ∧
    sameIgnoringCaseAndWhitespace asciiLower "Name".toList "Na\tme".toList = true ∧
    ValidateCSVColumnsErr asciiLower [⟨"Name".toList, 0⟩] ["Na\tme".toList]
      "processfd".toList 1
      = (true, some (CsvErr.heading "processfd".toList 1 0 "Name".toList "Na\tme".toList)) := by
  decide

/-- C12 (amended): the comparison ignores letter case on both sides and
white space on the side of the field only.  For every expected name `E`
and every field `F`, `ValidateCSVColumnsErr` treats `F` as matching `E`
exactly when the lower-cased `E` is equal to the lower-cased `F` with its
leading and trailing white space and its space characters taken out: on
line 1 with the one-column schema `E` the row `F, ...` passes exactly
then, and fails with the heading error at column 0 otherwise; a short row
`F` against a two-column schema gets the too-few-values error exactly
then; so an expected name with a space in it is matched by no field. -/
theorem heading_match_iff (lower : Char → Char) (E F : Str) (k : Nat) (fn : Str)
    (more : List Str) (c2 : CSVColumn) (lineno : Int) :
    (ValidateCSVColumnsErr lower [⟨E, k⟩] (F :: more) fn 1 = (false, none) ↔
      (ToLower lower (TrimSpace F)).filter (fun c => c != ' ') = ToLower lower E) ∧
    ((ToLower lower (TrimSpace F)).filter (fun c => c != ' ') ≠ ToLower lower E →
      ValidateCSVColumnsErr lower [⟨E, k⟩] (F :: more) fn 1
        = (true, some (CsvErr.heading fn 1 0 E F))) ∧
    (ValidateCSVColumnsErr lower [⟨E, k⟩, c2] [F] fn lineno
        = (true, some (CsvErr.tooFew fn lineno 1 2)) ↔
      (ToLower lower (TrimSpace F)).filter (fun c => c != ' ') = ToLower lower E) ∧
    (' ' ∈ ToLower lower E →
      ValidateCSVColumnsErr lower [⟨E, k⟩] (F :: more) fn 1 ≠ (false, none)) := by
  have hv : ValidateCSVColumnsErr lower [⟨E, k⟩] (F :: more) fn 1 =
      if headingDiffers lower ⟨E, k⟩ F = true then (true, some (CsvErr.heading fn 1 0 E F))
      else (false, none) := by
    simp only [ValidateCSVColumnsErr, headerLoop, List.length_cons, List.length_nil,
      List.getD_cons_zero]
    have h1 : ¬ (more.length + 1 < 0 + 1) := by omega
    simp only [h1, if_false, if_true]
    cases headingDiffers lower ⟨E, k⟩ F <;> rfl
  have hs : ValidateCSVColumnsErr lower [⟨E, k⟩, c2] [F] fn lineno =
      if headingDiffers lower ⟨E, k⟩ F = true then
        (true, some (CsvErr.heading fn lineno 0 E F))
      else (true, some (CsvErr.tooFew fn lineno 1 2)) := by
    simp only [ValidateCSVColumnsErr, shortLoop, List.length_cons, List.length_nil,
      List.getD_cons_zero]
    have h1 : (0 + 1 < 0 + 1 + 1) := by omega
    have h2 : (0 < 0 + 1) := by omega
    have h3 : ¬ (0 + 1 < 0 + 1) := by omega
    simp only [h1, h2, h3, if_false, if_true]
    cases headingDiffers lower ⟨E, k⟩ F <;> rfl
  have hd := headingDiffers_eq lower ⟨E, k⟩ F
  simp only at hd
  refine ⟨?_, ?_, ?_, ?_⟩
  · rw [hv]
    constructor
    · intro h
      by_contra hne
      have : headingDiffers lower ⟨E, k⟩ F = true := by
        rw [hd]; simpa using hne
      rw [if_pos this] at h
      cases h
    · intro h
      have : headingDiffers lower ⟨E, k⟩ F = false := by
        rw [hd]; simpa using h
      rw [this]
      rfl
  · intro hne
    have : headingDiffers lower ⟨E, k⟩ F = true := by
      rw [hd]; simpa using hne
    rw [hv, if_pos this]
  · rw [hs]
    constructor
    · intro h
      by_contra hne
      have : headingDiffers lower ⟨E, k⟩ F = true := by
        rw [hd]; simpa using hne
      rw [if_pos this] at h
      cases h
    · intro h
      have : headingDiffers lower ⟨E, k⟩ F = false := by
        rw [hd]; simpa using h
      rw [this]
      rfl
  · intro hmem hpass
    rw [hv] at hpass
    have hne : (ToLower lower (TrimSpace F)).filter (fun c => c != ' ') ≠ ToLower lower E := by
      intro heq
      rw [← heq] at hmem
      have := (List.mem_filter.1 hmem).2
      simp at this
    have : headingDiffers lower ⟨E, k⟩ F = true := by
      rw [hd]; simpa using hne
    rw [if_pos this] at hpass
    cases hpass

/-- Witness of C12 (amended): no row passes against the expected name
`Postal Code`. -/
theorem heading_match_iff_witness :
    ValidateCSVColumnsErr asciiLower [⟨"Postal Code".toList, 7⟩]
      ("Postal Code".toList :: []) "processfd".toList 1 ≠ (false, none) ∧
    ValidateCSVColumnsErr asciiLower [⟨"Name".toList, 0⟩]
      (" n a ME\t".toList :: []) "processfd".toList 1 = (false, none) :=
  ⟨(heading_match_iff asciiLower "Postal Code".toList "Postal Code".toList 7
      "processfd".toList [] ⟨[], 0⟩ 1).2.2.2 (by decide),
   (heading_match_iff asciiLower "Name".toList " n a ME\t".toList 0
      "processfd".toList [] ⟨[], 0⟩ 1).1.2 (by decide)⟩

/-! ## Claims on `processfd` and `csvQuote` -/

/-- C13: seeding a data row.  For every store, every line number other than
1 and every row with at least 5 fields, whatever their content, `processfd`
returns 0 and no error, and the store afterwards maps the key
`TrimSpace(row[0])` to the record with Name = csvQuote(TrimSpace(row[0])),
County, Chief, Phone, Fax = csvQuote(TrimSpace(row[1..4])), FDID = 0 and
Address, Address2, City, State, PostalCode empty, in the place of any
earlier entry under that key; the entry under every other key is as
before. -/
theorem processfd_seeds (lower : Char → Char) (st : FDMap) (lineno : Int)
    (n co ch ph fx : Str) (more : List Str) (hline : lineno ≠ 1) :
    ∃ st1, processfd lower st (n :: co :: ch :: ph :: fx :: more) lineno
        = some ((0, none), st1) ∧
      mapGet st1 (TrimSpace n) = some
        ⟨0, csvQuote (TrimSpace n), csvQuote (TrimSpace co), csvQuote (TrimSpace ch),
          csvQuote (TrimSpace ph), csvQuote (TrimSpace fx), [], [], [], [], []⟩ ∧
      ∀ k, k ≠ TrimSpace n → mapGet st1 k = mapGet st k :=
  ⟨_, processfd_data_row lower st lineno n co ch ph fx more hline,
    mapGet_mapSet_same _ _ _, fun _ hk => mapGet_mapSet_other _ _ _ _ hk⟩

/-- Witness of C13: the row ` Beta FD , C, H, P, F, x` on line 4 takes the
place of the record stored under `Beta FD`. -/
theorem processfd_seeds_witness :
    ∃ st1, processfd asciiLower [("Beta FD".toList, otherRecord)]
        (" Beta FD ".toList :: "C".toList :: "H".toList :: "P".toList :: "F".toList ::
          ["x".toList]) 4 = some ((0, none), st1) ∧
      mapGet st1 (TrimSpace " Beta FD ".toList) = some
        ⟨0, csvQuote (TrimSpace " Beta FD ".toList), csvQuote (TrimSpace "C".toList),
          csvQuote (TrimSpace "H".toList), csvQuote (TrimSpace "P".toList),
          csvQuote (TrimSpace "F".toList), [], [], [], [], []⟩ ∧
      ∀ k, k ≠ TrimSpace " Beta FD ".toList →
        mapGet st1 k = mapGet [("Beta FD".toList, otherRecord)] k :=
  processfd_seeds asciiLower [("Beta FD".toList, otherRecord)] 4 " Beta FD ".toList
    "C".toList "H".toList "P".toList "F".toList ["x".toList] (by decide)

/-- C14 (the code differs): on the string `a,"b`, which has a comma,
`csvQuote` returns the string itself between two double quotes, `"a,"b"`,
with the inner double quote kept: three double quotes, not the string
with its double quotes removed between two double quotes. -/
theorem csvQuote_keeps_quotes :
    csvQuote "a,\"b".toList = "\"a,\"b\"".toList ∧
    csvQuote "a,\"b".toList
      ≠ "\"".toList ++ Stripchars "a,\"b".toList "\"".toList ++ "\"".toList ∧
    (csvQuote "a,\"b".toList).count '"' = 3 := by
  decide

/-- C15 (the code differs): `csvQuote` is not idempotent.  On `a,b` the
first call gives `"a,b"` and the second call wraps it again,
`""a,b""`. -/
theorem csvQuote_not_idempotent :
    csvQuote "a,b".toList = "\"a,b\"".toList ∧
    csvQuote (csvQuote "a,b".toList) = "\"\"a,b\"\"".toList ∧
    csvQuote (csvQuote "a,b".toList) ≠ csvQuote "a,b".toList := by
  decide

/-! ## Claims on `ingestcsv` and `main` -/

/-- C17 (the code differs): a failing data row stops the ingestion.  With
`CsvErrorSensitivity` at `CsvErrLoose`, on the rows heading, `short`,
`Alpha FD,...` the loop of `ingestcsv` is left at the second row and the
third row, which has five fields, is not seeded: the store stays empty,
while `processfd` on that row and line alone would seed it. -/
theorem ingestcsv_stops_at_bad_row :
    CsvErrorSensitivity = CsvErrLoose ∧
    ingestcsv asciiLower [] [headerRow, ["short".toList], alphaRow] = some [] ∧
    (processfd asciiLower [] alphaRow 3).map (fun r => mapKeys r.2)
      = some ["Alpha FD".toList] := by
  decide

/-- C18: a malformed header is fatal to ingestion.  For every list of CSV
rows whose first row fails the validation on line 1 (too few fields or a
column name that differs), the loop of `ingestcsv` stops at that row and
seeds nothing: the store after ingestion is the store before it, whatever
rows follow. -/
theorem ingestcsv_bad_header (lower : Char → Char) (st : FDMap) (first : List Str)
    (rest : List (List Str))
    (hfail : (ValidateCSVColumnsErr lower csvCols first "processfd".toList 1).1 = true) :
    ingestcsv lower st (first :: rest) = some st := by
  have hp : ∃ err, processfd lower st first 1 = some ((1, err), st) := by
    unfold processfd
    cases hv : ValidateCSVColumnsErr lower csvCols first "processfd".toList 1 with
    | mk y err =>
      rw [hv] at hfail
      simp only at hfail
      subst hfail
      exact ⟨err, rfl⟩
  obtain ⟨err, hp⟩ := hp
  have h01 : (0 : Int) + 1 = 1 := by decide
  simp only [ingestcsv, ingestLoop, h01, hp]
  rfl

/-- Witness of C18: the heading `Name, Country, ...` stops the ingestion, and
the data row after it is not seeded. -/
theorem ingestcsv_bad_header_witness :
    ingestcsv asciiLower [("Beta FD".toList, otherRecord)]
      (["Name".toList, "Country".toList, "Chief".toList, "Phone".toList, "Fax".toList]
        :: [alphaRow])
      = some [("Beta FD".toList, otherRecord)] :=
  ingestcsv_bad_header asciiLower [("Beta FD".toList, otherRecord)]
    ["Name".toList, "Country".toList, "Chief".toList, "Phone".toList, "Fax".toList]
    [alphaRow] (by decide)

set_option maxRecDepth 100000 in
/-- C19 (the code differs): in the end-to-end scenario the loop of
`buildContactList`, `for i := 1; i < len(FDList); i++`, makes no iteration
because `len(FDList)` is 1, so no page is fetched, whatever the server
would return; the only data row of the output is
`0,Alpha FD,County A,Chief X,555-0001,555-0002,,,,,`.  A call of
`scrapeHTML` on the page with id 1 would have given the row of the
scenario. -/
theorem main_scenario (fetch : Int → Option Str) :
    main asciiLower fetch [headerRow, alphaRow] = some
      ("FDID,Name,County,Chief,Phone,Fax,Address,Address2,City,State,PostalCode\n" ++
        "0,Alpha FD,County A,Chief X,555-0001,555-0002,,,,,\n").toList ∧
    ((ingestcsv asciiLower [] [headerRow, alphaRow]).bind
        (fun st => scrapeHTML st alphaPage 1)).map (fun r => generateCSV r.2) = some
      ("FDID,Name,County,Chief,Phone,Fax,Address,Address2,City,State,PostalCode\n" ++
        "1,Alpha FD,County A,Chief X,555-0001,555-0002,123 Main St,,Example City,OK,74000\n"
        ).toList := by
  have h1 : ingestcsv asciiLower [] [headerRow, alphaRow] = some
      [("Alpha FD".toList, ⟨0, "Alpha FD".toList, "County A".toList, "Chief X".toList,
        "555-0001".toList, "555-0002".toList, [], [], [], [], []⟩)] := by decide
  refine ⟨?_, by decide⟩
  have h2 : ¬ (1 < 0 + 1) := by omega
  simp only [main, h1, buildContactList, buildLoop, List.length_cons, List.length_nil, h2,
    if_false]
  decide

/-! ## The effect of one call on the store -/

/-- A call of `scrapeHTML` that returns either leaves the store as it is, or
returns 0 and writes the five scraped fields into the entry that is
stored under the name of the page. -/
theorem scrapeHTML_effect (st : FDMap) (page : Str) (id r : Int) (st1 : FDMap)
    (h : scrapeHTML st page id = some (r, st1)) :
    st1 = st ∨
      (r = 0 ∧ ∃ (name : Str) (f : FDRecord) (a c s z : Str),
        scrapedName page = some name ∧ mapGet st name = some f ∧
        st1 = mapSet st name
          { f with FDID := id, Address := a, City := c, State := s, PostalCode := z }) := by
  unfold scrapeHTML at h
  cases hi1 : Index page markStart with
  | none => simp only [hi1] at h; cases h; exact Or.inl rfl
  | some i1 =>
  simp only [hi1] at h
  cases hi2 : Index page markStop with
  | none => simp only [hi2] at h; cases h; exact Or.inl rfl
  | some i2 =>
  simp only [hi2] at h
  cases hs : slice page i1 i2 with
  | none => simp only [hs] at h; cases h
  | some s =>
  simp only [hs] at h
  cases hj1 : Index s nameOpen with
  | none => simp only [hj1] at h; cases h; exact Or.inl rfl
  | some j1 =>
  cases hj2 : Index s nameClose with
  | none => simp only [hj1, hj2] at h; cases h; exact Or.inl rfl
  | some j2 =>
  simp only [hj1, hj2] at h
  cases hnm : slice s (j1 + 4) j2 with
  | none => simp only [hnm] at h; cases h
  | some nm =>
  simp only [hnm] at h
  cases hk1 : Index s target with
  | none => simp only [hk1] at h; cases h; exact Or.inl rfl
  | some k1 =>
  cases hk2 : Index s phMark with
  | none => simp only [hk1, hk2] at h; cases h; exact Or.inl rfl
  | some k2 =>
  simp only [hk1, hk2] at h
  cases hraw : slice s (k1 + target.length) k2 with
  | none => simp only [hraw] at h; cases h
  | some raw =>
  simp only [hraw] at h
  cases ha1 : (List.map TrimSpace (Split raw brSep)).get? 1 with
  | none => simp only [ha1] at h; cases h
  | some addr1 =>
  simp only [ha1] at h
  cases hm0 : (FindAllStringSubmatch reCSZ addr1).get? 0 with
  | none => simp only [hm0] at h; cases h
  | some m0 =>
  simp only [hm0] at h
  split at h
  · rename_i city state zip addr0 _ _ _ _
    cases hf : mapGet st (TrimSpace nm) with
    | none => simp only [hf] at h; cases h; exact Or.inl rfl
    | some f =>
      simp only [hf, Option.some.injEq, Prod.mk.injEq] at h
      refine Or.inr ⟨h.1.symm, TrimSpace nm, f, _, _, _, _, ?_, hf, h.2.symm⟩
      simp only [scrapedName, hi1, hi2, hs, hj1, hj2, hnm, Option.map_some']
  · cases h

/-- A call of `processfd` that returns either leaves the store as it is, or
stores under the trimmed first field a fresh record whose name is the
quoted key. -/
theorem processfd_effect (lower : Char → Char) (st : FDMap) (sa : List Str) (lineno : Int)
    (r : Int × Option CsvErr) (st1 : FDMap)
    (h : processfd lower st sa lineno = some (r, st1)) :
    st1 = st ∨
      ∃ (n : Str) (f : FDRecord), sa.get? 0 = some n ∧ f.Name = csvQuote (TrimSpace n) ∧
        st1 = mapSet st (TrimSpace n) f := by
  unfold processfd at h
  split at h
  · cases h; exact Or.inl rfl
  · split at h
    · cases h; exact Or.inl rfl
    · split at h
      · rename_i n co ch ph fx hn _ _ _ _
        simp only [Option.some.injEq, Prod.mk.injEq] at h
        exact Or.inr ⟨n, _, hn, rfl, h.2.symm⟩
      · cases h

theorem TrimSpace_head (s : Str) :
    ∀ c, (TrimSpace s).head? = some c → isSpace c = false := by
  have hpre : ∃ v, s.dropWhile isSpace = TrimSpace s ++ v := by
    unfold TrimSpace
    obtain ⟨w, hw⟩ := List.dropWhile_suffix (l := (s.dropWhile isSpace).reverse) isSpace
    refine ⟨w.reverse, ?_⟩
    have := congrArg List.reverse hw
    simp only [List.reverse_append, List.reverse_reverse] at this
    exact this.symm
  obtain ⟨v, hv⟩ := hpre
  intro c hc
  by_cases hnil : TrimSpace s = []
  · rw [hnil] at hc; cases hc
  · apply head_dropWhile_false isSpace s c
    rw [hv, head_of_append_ne_nil _ _ hnil]
    exact hc

theorem TrimSpace_last (s : Str) :
    ∀ c, (TrimSpace s).getLast? = some c → isSpace c = false := by
  intro c hc
  apply head_dropWhile_false isSpace (s.dropWhile isSpace).reverse c
  rw [List.getLast?_eq_head?_reverse] at hc
  simpa [TrimSpace] using hc

theorem LastIndex_single_some {s : Str} {c : Char} (h : c ∈ s) :
    ∃ i, LastIndex s [c] = some i := by
  induction s with
  | nil => cases h
  | cons x xs ih =>
    simp only [LastIndex]
    cases hl : LastIndex xs [c] with
    | some i => exact ⟨i + 1, rfl⟩
    | none =>
      have hnot : c ∉ xs := by
        intro hm
        obtain ⟨i, hi⟩ := ih hm
        rw [hi] at hl
        cases hl
      have hx : x = c := by
        rcases List.mem_cons.1 h with h1 | h1
        · exact h1.symm
        · exact absurd h1 hnot
      simp [HasPrefix, hx]

/-- `csvQuote` changes a string exactly when the string holds a comma. -/
theorem csvQuote_ne_iff (k : Str) : csvQuote k ≠ k ↔ ',' ∈ k := by
  have hq : "\"".toList = ['"'] := rfl
  have hc : ",".toList = [','] := rfl
  constructor
  · intro hne
    by_contra hno
    exact hne (csvQuote_eq_self hno)
  · intro hmem hEq
    have hmem2 : ',' ∈ Stripchars k "\"".toList := by
      rw [hq, Stripchars_single]
      exact List.mem_filter.2 ⟨hmem, by decide⟩
    obtain ⟨i, hi⟩ := LastIndex_single_some hmem2
    rw [← hc] at hi
    simp only [csvQuote, hi] at hEq
    have := congrArg List.length hEq
    simp at this
    omega

theorem mem_of_mapGet (m : FDMap) (k : Str) (f : FDRecord) (h : mapGet m k = some f) :
    (k, f) ∈ m := by
  induction m with
  | nil => cases h
  | cons e m ih =>
    obtain ⟨k1, v1⟩ := e
    by_cases hk : k1 = k
    · simp only [mapGet, hk, if_true, Option.some.injEq] at h
      rw [hk, h]
      exact List.mem_cons_self _ _
    · simp only [mapGet, hk, if_false] at h
      exact List.mem_cons_of_mem _ (ih h)

theorem mem_mapSet (m : FDMap) (k : Str) (v : FDRecord) (e : Str × FDRecord)
    (h : e ∈ mapSet m k v) : e ∈ m ∨ e = (k, v) := by
  induction m with
  | nil =>
    simp only [mapSet, List.mem_singleton] at h
    exact Or.inr h
  | cons e1 m ih =>
    obtain ⟨k1, v1⟩ := e1
    by_cases hk : k1 = k
    · simp only [mapSet, hk, if_true, List.mem_cons] at h
      rcases h with h | h
      · exact Or.inr h
      · exact Or.inl (List.mem_cons_of_mem _ h)
    · simp only [mapSet, hk, if_false, List.mem_cons] at h
      rcases h with h | h
      · exact Or.inl (by rw [h]; exact List.mem_cons_self _ _)
      · rcases ih h with h1 | h1
        · exact Or.inl (List.mem_cons_of_mem _ h1)
        · exact Or.inr h1

/-- Every entry of a reachable store has a trimmed key and the quoted key
as its name. -/
theorem reachable_entries (lower : Char → Char) (st : FDMap) (h : Reachable lower st) :
    ∀ e ∈ st, (∀ c, e.1.head? = some c → isSpace c = false) ∧
      (∀ c, e.1.getLast? = some c → isSpace c = false) ∧ e.2.Name = csvQuote e.1 := by
  induction h with
  | empty => intro e he; cases he
  | seed st st1 sa lineno r _ hp ih =>
    rcases processfd_effect lower st sa lineno r st1 hp with heq | ⟨n, f, _, hname, heq⟩
    · rw [heq]; exact ih
    · intro e he
      rw [heq] at he
      rcases mem_mapSet _ _ _ _ he with h1 | h1
      · exact ih e h1
      · rw [h1]
        exact ⟨TrimSpace_head n, TrimSpace_last n, hname⟩
  | scrape st st1 src id status _ hs ih =>
    rcases scrapeHTML_effect st src id status st1 hs with
      heq | ⟨_, name, f, a, c, s, z, _, hf, heq⟩
    · rw [heq]; exact ih
    · intro e he
      rw [heq] at he
      rcases mem_mapSet _ _ _ _ he with h1 | h1
      · exact ih e h1
      · have hold := ih (name, f) (mem_of_mapGet _ _ _ hf)
        rw [h1]
        exact ⟨hold.1, hold.2.1, hold.2.2⟩

/-! ## Claims on the runs of the program -/

/-- C20: key/name invariant.  In every store reachable from the empty
store by any sequence of `processfd` and `scrapeHTML` calls, every key `k`
has no leading and no trailing white space, and the record stored under
`k` has Name = csvQuote(k); hence the stored name differs from the key
exactly when the key holds a comma; and `scrapeHTML`, which looks up the
unquoted trimmed `<h3>` text, finds the record: on a well-formed page with
that name it returns 0. -/
theorem key_name_invariant (lower : Char → Char) (st : FDMap) (hreach : Reachable lower st)
    (k : Str) (f : FDRecord) (hk : mapGet st k = some f) :
    (∀ c, k.head? = some c → isSpace c = false) ∧
    (∀ c, k.getLast? = some c → isSpace c = false) ∧
    f.Name = csvQuote k ∧
    (f.Name ≠ k ↔ ',' ∈ k) ∧
    (∀ (page : Str) (id : Int) (i1 i2 j1 j2 k1 k2 : Nat) (a0 a1 : Str) (rest : List Str),
      Index page markStart = some i1 → Index page markStop = some i2 → i1 ≤ i2 →
      Index ((page.take i2).drop i1) nameOpen = some j1 →
      Index ((page.take i2).drop i1) nameClose = some j2 → j1 < j2 →
      Index ((page.take i2).drop i1) target = some k1 →
      Index ((page.take i2).drop i1) phMark = some k2 →
      k1 + target.length ≤ k2 →
      Split ((((page.take i2).drop i1).take k2).drop (k1 + target.length)) brSep
        = a0 :: a1 :: rest →
      (reMatch reCSZ (TrimSpace a1)).isSome = true →
      TrimSpace ((((page.take i2).drop i1).take j2).drop (j1 + 4)) = k →
      ∃ st2, scrapeHTML st page id = some (0, st2) ∧
        (mapGet st2 k).map baseline = some (baseline f)) := by
  have hinv := reachable_entries lower st hreach (k, f) (mem_of_mapGet _ _ _ hk)
  simp only at hinv
  refine ⟨hinv.1, hinv.2.1, hinv.2.2, ?_, ?_⟩
  · rw [hinv.2.2]
    exact csvQuote_ne_iff k
  · intro page id i1 i2 j1 j2 k1 k2 a0 a1 rest hi1 hi2 hle hj1 hj2 hlt hk1 hk2 hkk hsplit
      hre hname
    obtain ⟨gs, hgs⟩ := Option.isSome_iff_exists.1 hre
    obtain ⟨city, -, state, -, zip, -, -, -, -, -, -, -, -, -, -, hr⟩ := reCSZ_some hgs
    subst hr
    have hsc := scrapeHTML_wellformed st page id i1 i2 j1 j2 k1 k2 a0 a1 rest city state zip
      hi1 hi2 hle hj1 hj2 hlt hk1 hk2 hkk hsplit hgs
    rw [hname, hk] at hsc
    refine ⟨_, hsc, ?_⟩
    rw [mapGet_mapSet_same]
    rfl

set_option maxRecDepth 100000 in
/-- Witness of C20: the store after the row `Alpha, FD, ...`, and the page
whose `<h3>` text is ` Alpha, FD `. -/
theorem key_name_invariant_witness :
    (∀ c, "Alpha, FD".toList.head? = some c → isSpace c = false) ∧
    (∀ c, "Alpha, FD".toList.getLast? = some c → isSpace c = false) ∧
    "\"Alpha, FD\"".toList = csvQuote "Alpha, FD".toList ∧
    ("\"Alpha, FD\"".toList ≠ "Alpha, FD".toList ↔ ',' ∈ "Alpha, FD".toList) ∧
    ∃ st2, scrapeHTML commaStore commaPage 9 = some (0, st2) ∧
      (mapGet st2 "Alpha, FD".toList).map baseline
        = some ("\"Alpha, FD\"".toList, "County A".toList, "Chief X".toList,
            "555-0001".toList, "555-0002".toList) := by
  have h := key_name_invariant asciiLower commaStore
    (Reachable.seed [] commaStore commaRow 2 (0, none) Reachable.empty (by decide))
    "Alpha, FD".toList
    ⟨0, "\"Alpha, FD\"".toList, "County A".toList, "Chief X".toList,
      "555-0001".toList, "555-0002".toList, [], [], [], [], []⟩ (by decide)
  exact ⟨h.1, h.2.1, h.2.2.1, h.2.2.2.1,
    h.2.2.2.2 commaPage 9 5 113 15 30 35 94 "1 Main St".toList "Tulsa, OK 74000".toList []
      (by decide) (by decide) (by decide) (by decide) (by decide) (by decide) (by decide)
      (by decide) (by decide) (by decide) (by decide) (by decide)⟩

theorem processfd_other_key (lower : Char → Char) (st : FDMap) (sa : List Str) (lineno : Int)
    (r : Int × Option CsvErr) (st1 : FDMap) (k : Str)
    (h : processfd lower st sa lineno = some (r, st1))
    (hk : ∀ n, sa.get? 0 = some n → TrimSpace n ≠ k) : mapGet st1 k = mapGet st k := by
  rcases processfd_effect lower st sa lineno r st1 h with heq | ⟨n, f, hn, _, heq⟩
  · rw [heq]
  · rw [heq]
    exact mapGet_mapSet_other _ _ _ _ (fun e => hk n hn e.symm)

theorem scrapeHTML_baseline (st : FDMap) (page : Str) (id r : Int) (st1 : FDMap) (k : Str)
    (h : scrapeHTML st page id = some (r, st1)) :
    (mapGet st1 k).map baseline = (mapGet st k).map baseline := by
  rcases scrapeHTML_effect st page id r st1 h with heq | ⟨_, name, f, a, c, s, z, _, hf, heq⟩
  · rw [heq]
  · rw [heq]
    by_cases hk : k = name
    · subst hk
      rw [mapGet_mapSet_same, hf]
      rfl
    · rw [mapGet_mapSet_other _ _ _ _ hk]

theorem scrapeHTML_other_name (st : FDMap) (page : Str) (id r : Int) (st1 : FDMap) (k : Str)
    (h : scrapeHTML st page id = some (r, st1)) (hk : scrapedName page ≠ some k) :
    mapGet st1 k = mapGet st k := by
  rcases scrapeHTML_effect st page id r st1 h with heq | ⟨_, name, f, a, c, s, z, hn, _, heq⟩
  · rw [heq]
  · rw [heq]
    exact mapGet_mapSet_other _ _ _ _ (fun e => hk (by rw [hn, e]))

theorem seedRun_other_key (lower : Char → Char) (rows : List (List Str × Int)) (st st1 : FDMap)
    (k : Str) (h : seedRun lower st rows = some st1)
    (hk : ∀ c ∈ rows, ∀ n, c.1.get? 0 = some n → TrimSpace n ≠ k) :
    mapGet st1 k = mapGet st k := by
  induction rows generalizing st with
  | nil =>
    simp only [seedRun, Option.some.injEq] at h
    rw [h]
  | cons c cs ih =>
    simp only [seedRun] at h
    cases hp : processfd lower st c.1 c.2 with
    | none => simp only [hp] at h; cases h
    | some res =>
      obtain ⟨r, st2⟩ := res
      simp only [hp] at h
      rw [ih st2 h (fun d hd => hk d (List.mem_cons_of_mem _ hd)),
        processfd_other_key lower st c.1 c.2 r st2 k hp (hk c (List.mem_cons_self _ _))]

theorem scrapeRun_baseline (pages : List (Str × Int)) (st st1 : FDMap) (k : Str)
    (h : scrapeRun st pages = some st1) :
    (mapGet st1 k).map baseline = (mapGet st k).map baseline := by
  induction pages generalizing st with
  | nil =>
    simp only [scrapeRun, Option.some.injEq] at h
    rw [h]
  | cons c cs ih =>
    simp only [scrapeRun] at h
    cases hp : scrapeHTML st c.1 c.2 with
    | none => simp only [hp] at h; cases h
    | some res =>
      obtain ⟨r, st2⟩ := res
      simp only [hp] at h
      rw [ih st2 h, scrapeHTML_baseline st c.1 c.2 r st2 k hp]

theorem scrapeRun_other_name (pages : List (Str × Int)) (st st1 : FDMap) (k : Str)
    (h : scrapeRun st pages = some st1) (hk : ∀ c ∈ pages, scrapedName c.1 ≠ some k) :
    mapGet st1 k = mapGet st k := by
  induction pages generalizing st with
  | nil =>
    simp only [scrapeRun, Option.some.injEq] at h
    rw [h]
  | cons c cs ih =>
    simp only [scrapeRun] at h
    cases hp : scrapeHTML st c.1 c.2 with
    | none => simp only [hp] at h; cases h
    | some res =>
      obtain ⟨r, st2⟩ := res
      simp only [hp] at h
      rw [ih st2 h (fun d hd => hk d (List.mem_cons_of_mem _ hd)),
        scrapeHTML_other_name st c.1 c.2 r st2 k hp (hk c (List.mem_cons_self _ _))]

set_option maxRecDepth 100000 in
/-- Counterexample of C16: after the row `Alpha FD, County A, ...` the later
row `Alpha FD, County Z, ...` changes the county of the record, and after a
successful scrape of the page of `Alpha FD` with id 1 a later scrape of the
same page with id 2 changes the FDID of the record. -/
theorem set_once_counterexample :
    (seedRun asciiLower [] [(alphaRow, 2)]).map
        (fun st => (mapGet st "Alpha FD".toList).map baseline)
      = some (some ("Alpha FD".toList, "County A".toList, "Chief X".toList,
          "555-0001".toList, "555-0002".toList)) ∧
    (seedRun asciiLower [] [(alphaRow, 2), (alphaRowLater, 3)]).map
        (fun st => (mapGet st "Alpha FD".toList).map baseline)
      = some (some ("Alpha FD".toList, "County Z".toList, "Chief X".toList,
          "555-0001".toList, "555-0002".toList)) ∧
    ((seedRun asciiLower [] [(alphaRow, 2)]).bind
        (fun st => scrapeRun st [(alphaPage, 1)])).map
        (fun st => (mapGet st "Alpha FD".toList).map scraped)
      = some (some (1, "123 Main St".toList, "Example City".toList, "OK".toList,
          "74000".toList)) ∧
    ((seedRun asciiLower [] [(alphaRow, 2)]).bind
        (fun st => scrapeRun st [(alphaPage, 1), (alphaPage, 2)])).map
        (fun st => (mapGet st "Alpha FD".toList).map scraped)
      = some (some (2, "123 Main St".toList, "Example City".toList, "OK".toList,
          "74000".toList)) := by
  refine ⟨?_, ?_, ?_, ?_⟩ <;> rfl

/-- C16 (amended): in every run, a sequence of `processfd` calls followed by
a sequence of `scrapeHTML` calls from any store, the record under a key
`k` is left as it is by every CSV row whose trimmed name is not `k`; no
scrape changes the baseline fields (Name, County, Chief, Phone, Fax) of
any record, nor adds or removes a key; and the record under `k` is left as
it is by every scrape of a page whose trimmed `<h3>` name is not `k`.  (A
later row, or a later successful scrape, with the same name writes the
fields again.) -/
theorem set_once_amended (lower : Char → Char) (st0 st1 st2 : FDMap)
    (rows : List (List Str × Int)) (pages : List (Str × Int)) (k : Str)
    (hseed : seedRun lower st0 rows = some st1) (hscrape : scrapeRun st1 pages = some st2) :
    ((∀ c ∈ rows, ∀ n, c.1.get? 0 = some n → TrimSpace n ≠ k) →
      mapGet st1 k = mapGet st0 k) ∧
    (mapGet st2 k).map baseline = (mapGet st1 k).map baseline ∧
    ((∀ c ∈ pages, scrapedName c.1 ≠ some k) → mapGet st2 k = mapGet st1 k) :=
  ⟨seedRun_other_key lower rows st0 st1 k hseed, scrapeRun_baseline pages st1 st2 k hscrape,
    scrapeRun_other_name pages st1 st2 k hscrape⟩

set_option maxRecDepth 100000 in
/-- Witness of C16 (amended): from the store that holds `Beta FD`, the row of
`Alpha FD` and two scrapes of the page of `Alpha FD` leave the record of
`Beta FD` as it is. -/
theorem set_once_amended_witness :
    mapGet
        [("Beta FD".toList, otherRecord),
          ("Alpha FD".toList, ⟨0, "Alpha FD".toList, "County A".toList, "Chief X".toList,
            "555-0001".toList, "555-0002".toList, [], [], [], [], []⟩)]
        "Beta FD".toList
      = mapGet [("Beta FD".toList, otherRecord)] "Beta FD".toList ∧
    (mapGet
        [("Beta FD".toList, otherRecord),
          ("Alpha FD".toList, ⟨2, "Alpha FD".toList, "County A".toList, "Chief X".toList,
            "555-0001".toList, "555-0002".toList, "123 Main St".toList, [],
            "Example City".toList, "OK".toList, "74000".toList⟩)]
        "Beta FD".toList).map baseline
      = (mapGet
        [("Beta FD".toList, otherRecord),
          ("Alpha FD".toList, ⟨0, "Alpha FD".toList, "County A".toList, "Chief X".toList,
            "555-0001".toList, "555-0002".toList, [], [], [], [], []⟩)]
        "Beta FD".toList).map baseline := by
  have h := set_once_amended asciiLower [("Beta FD".toList, otherRecord)]
    [("Beta FD".toList, otherRecord),
      ("Alpha FD".toList, ⟨0, "Alpha FD".toList, "County A".toList, "Chief X".toList,
        "555-0001".toList, "555-0002".toList, [], [], [], [], []⟩)]
    [("Beta FD".toList, otherRecord),
      ("Alpha FD".toList, ⟨2, "Alpha FD".toList, "County A".toList, "Chief X".toList,
        "555-0001".toList, "555-0002".toList, "123 Main St".toList, [],
        "Example City".toList, "OK".toList, "74000".toList⟩)]
    [(alphaRow, 2)] [(alphaPage, 1), (alphaPage, 2)] "Beta FD".toList
    (by decide) (by decide)
  exact ⟨h.1 (by decide), h.2.1⟩


end Scrapefd
